import Mathlib

/-!
Verification of the document chunking + indexing + two-stage ranking pipeline
of the SmartRecruit JD/CV matching service.

The Python sources are shallowly embedded: pure fragments become Lean
functions over explicit data; external effects (embedding endpoint, LLM
backend, vector store) are passed in as explicit oracle values or store
states.  Python floats are modelled as rationals (`ℚ`), Python strings as
`String` with character-list implementations of `str.strip`, `str.join`,
`str.split`/`int` so that everything evaluates inside the kernel.
-/

namespace SR

/-! ## Python string primitives -/

/-- Model of Python `str.strip()`: drop whitespace from both ends. -/
def pyStrip (s : String) : String :=
  ⟨((s.data.dropWhile Char.isWhitespace).reverse.dropWhile Char.isWhitespace).reverse⟩

/-- Model of Python `sep.join(parts)`. -/
def pyJoin (sep : String) : List String → String
  | [] => ""
  | [s] => s
  | s :: rest => s ++ sep ++ pyJoin sep rest

/-- Model of Python `s.split('-')[-1]`: the suffix after the last hyphen
(the whole string when there is no hyphen). -/
def suffixAfterLastDash (s : String) : String :=
  ⟨(s.data.reverse.takeWhile (fun c => c ≠ '-')).reverse⟩

/-- Digit-string to number; fails on the empty list or any non-digit. -/
def digitsToNat : List Char → Option Nat
  | [] => none
  | l => l.foldl (fun acc c =>
      match acc with
      | none => none
      | some n => if c.isDigit then some (n * 10 + (c.toNat - '0'.toNat)) else none)
      (some 0)

/-- Model of Python `int(s)` on plain (optionally negated) digit strings;
`none` models the `ValueError` raised on anything else. -/
def pyInt? (s : String) : Option Int :=
  match s.data with
  | '-' :: rest => (digitsToNat rest).map (fun n => -(n : Int))
  | l => (digitsToNat l).map (fun n => (n : Int))

/-- Python truthiness of an optional string: `None` and `""` are falsy. -/
def truthyStr : Option String → Bool
  | some s => s != ""
  | none => false

/-! ## Data model: chunk payloads as stored in the vector index

`src/src/vector_db/jd_repository.py` (`_process_chunks_for_vector_db`)
builds one payload dict per upserted point; `chunk_index` is an `Option`
because retrieval code must tolerate payloads missing the field or holding
a non-integer. -/

structure ChunkPayload where
  original_doc_id : String := ""
  chunk_index : Option Int := none
  enriched_text : String := ""
  og_text : Option String := none
  total_chunks_for_doc : Nat := 0
  weight : Option Int := none
  deriving Repr, DecidableEq

/-- `isinstance(c.get("chunk_index"), int)` from
`get_full_document_text_from_db` (vectordb_client.py:324). -/
def hasValidIndex (c : ChunkPayload) : Bool := c.chunk_index.isSome

/-- Sort key `lambda c: c["chunk_index"]` (only ever applied after the
valid-index filter, where the default is never used). -/
def indexKey (c : ChunkPayload) : Int := c.chunk_index.getD 0

/-- `isinstance(chunk.get("og_text"), str) and chunk.get("og_text","").strip()`
(vectordb_client.py:335). -/
def usableOgText (c : ChunkPayload) : Bool :=
  match c.og_text with
  | some s => pyStrip s != ""
  | none => false

/-- The og_text actually used for a retained chunk. -/
def ogTextPart (c : ChunkPayload) : String := c.og_text.getD ""

/-- The `sorted` key order on chunk payloads. -/
def chunkIdxLE (a b : ChunkPayload) : Prop := indexKey a ≤ indexKey b

instance : DecidableRel chunkIdxLE := fun a b => inferInstanceAs (Decidable (_ ≤ _))

instance : IsTotal ChunkPayload chunkIdxLE := ⟨fun _ _ => Int.le_total _ _⟩

instance : IsTrans ChunkPayload chunkIdxLE := ⟨fun _ _ _ => Int.le_trans⟩

/-- Python's `sorted` is a stable sort; `List.insertionSort` with a `≤`
relation is extensionally the same stable sort. -/
def sortChunksByIndex (l : List ChunkPayload) : List ChunkPayload :=
  List.insertionSort chunkIdxLE l

/-- `full_text_parts` (vectordb_client.py:335): the non-blank og_texts of
the valid-index chunks, in stable `chunk_index` order. -/
def fullTextParts (chunks : List ChunkPayload) : List String :=
  ((sortChunksByIndex (chunks.filter hasValidIndex)).filter usableOgText).map ogTextPart

/-- `get_full_document_text_from_db` (vectordb_client.py:298-341), taking the
already-fetched chunk payload list as input: reject an empty fetch, keep
only chunks with an integer `chunk_index`, stable-sort by it, keep the
non-blank `og_text` values, join them with a blank line (or return `none`
when nothing usable remains). -/
def get_full_document_text_from_db (chunks : List ChunkPayload) : Option String :=
  if chunks.isEmpty then none
  else if (fullTextParts chunks).isEmpty then none
  else some (pyJoin "\n\n" (fullTextParts chunks))

/-! ## Chunk persistence (`_process_chunks_for_vector_db`, jd_repository.py:27-90) -/

/-- A chunk dict as produced by the LLM chunker: `og_content` /
`enriched_content` string fields plus an optional integer `weight`.
`none` models a missing key. -/
structure LLMChunk where
  og_content : Option String := none
  enriched_content : Option String := none
  weight : Option Int := none
  deriving Repr, DecidableEq

def ogTextOf (c : LLMChunk) : String := c.og_content.getD ""

def enrichedTextOf (c : LLMChunk) : String := c.enriched_content.getD ""

/-- The loop keeps a chunk iff its enriched text is non-blank after
stripping (jd_repository.py:57). -/
def keptChunk (c : LLMChunk) : Bool := pyStrip (enrichedTextOf c) != ""

/-- An upserted point: generated id, embedding vector, payload. -/
structure Point where
  pid : Nat
  vector : List ℚ
  payload : ChunkPayload
  deriving Repr, DecidableEq

/-- Payload built for the chunk at enumeration position `i`
(jd_repository.py:64-73): the index is the position in the *input* list and
the redundant total is the *input* length; `weight` is attached only for
the JD collection, defaulting to 1 when the chunk carries none. -/
def chunkPayloadAt (docId : String) (isJd : Bool) (total : Nat) (i : Nat) (c : LLMChunk) :
    ChunkPayload :=
  { original_doc_id := docId
    chunk_index := some (i : Int)
    enriched_text := enrichedTextOf c
    og_text := some (ogTextOf c)
    total_chunks_for_doc := total
    weight := if isJd then some (c.weight.getD 1) else none }

/-- `enumerate(chunks)` restricted to the kept (non-blank enriched) chunks. -/
def keptIndexed (chunks : List LLMChunk) : List (Nat × LLMChunk) :=
  chunks.enum.filter (fun ic => keptChunk ic.2)

/-- The points accumulated by the loop: one per kept chunk, with a fresh id
per point (sequential ids model the freshly generated random UUIDs — all
distinct from every previously existing id). -/
def processChunksPoints (docId : String) (isJd : Bool) (embed : String → List ℚ)
    (firstId : Nat) (chunks : List LLMChunk) : List Point :=
  (keptIndexed chunks).enum.map (fun jic =>
    { pid := firstId + jic.1
      vector := embed (enrichedTextOf jic.2.2)
      payload := chunkPayloadAt docId isJd chunks.length jic.2.1 jic.2.2 })

/-- The up-front guard (jd_repository.py:44): fail unless the list is
non-empty and *every* chunk has a truthy (present, non-empty)
`enriched_content`. -/
def chunksGuardOk (chunks : List LLMChunk) : Bool :=
  !chunks.isEmpty && chunks.all (fun c => truthyStr c.enriched_content)

/-- `_process_chunks_for_vector_db`: returns the success flag and the point
list handed to the upsert.  `upsertOk` models whether the store's upsert
call succeeds (jd_repository.py:81-90). -/
def processChunksForVectorDb (docId : String) (isJd : Bool) (embed : String → List ℚ)
    (firstId : Nat) (upsertOk : Bool) (chunks : List LLMChunk) : Bool × List Point :=
  if !chunksGuardOk chunks then (false, [])
  else
    let points := processChunksPoints docId isJd embed firstId chunks
    if points.isEmpty then (false, [])
    else (upsertOk, points)

/-! ## Embedding generation (`get_embedding`, vectordb_client.py:111-171) -/

def EMBEDDING_DIMENSIONS : Nat := 1024

def zeroVector : List ℚ := List.replicate EMBEDDING_DIMENSIONS 0

/-- Outcome of the HTTP call to the embedding endpoint. `raised` models any
exception (network failure, timeout, unparseable body); otherwise a status
code plus the optional first element of the `embeddings` field (`none`
models a missing or empty `embeddings` list). -/
inductive EmbedApiResult where
  | raised : EmbedApiResult
  | response (status : Nat) (embeddings : Option (List ℚ)) : EmbedApiResult
  deriving Repr, DecidableEq

/-- Result of `get_embedding`: whether the endpoint was contacted, and the
returned vector. -/
structure EmbedCall where
  endpointCalled : Bool
  vector : List ℚ
  deriving Repr, DecidableEq

/-- `get_embedding`: strip the text, short-circuit blank input, fail fast on
a missing key, otherwise call the endpoint and fall back to the zero vector
on any raised error, non-200 status, malformed body, or dimension
mismatch. -/
def get_embedding (text : String) (apiKey : Option String) (api : EmbedApiResult) : EmbedCall :=
  if pyStrip text = "" then ⟨false, zeroVector⟩
  else if !truthyStr apiKey then ⟨false, zeroVector⟩
  else
    match api with
    | .raised => ⟨true, zeroVector⟩
    | .response status emb =>
      if status ≠ 200 then ⟨true, zeroVector⟩
      else
        match emb with
        | none => ⟨true, zeroVector⟩
        | some v => if v.length ≠ EMBEDDING_DIMENSIONS then ⟨true, zeroVector⟩ else ⟨true, v⟩

/-! ## LLM chunker (`chunk_document_with_llm`, chunker.py:14-135)

We embed the part after the JSON response has been parsed: the input is the
parsed JSON object as an association list in insertion order (JSON object
keys are unique). -/

/-- A parsed JSON chunk value.  `none` in `og_content`/`enriched_content`
models a missing key or a non-string value (or the whole value not being an
object); `weight` is `some w` only when the key is present with an integer
value. -/
structure JsonChunkObj where
  og_content : Option String := none
  enriched_content : Option String := none
  weight : Option Int := none
  deriving Repr, DecidableEq

/-- `int(key.split('-')[-1])` (chunker.py:90); `none` models the raised
`ValueError`. -/
def chunkKeyNum (s : String) : Option Int := pyInt? (suffixAfterLastDash s)

/-- Per-chunk validation (chunker.py:97-116): keep only objects with both
string contents; keep `weight` only when integer and in `[1,3]`. -/
def validateChunkObj (o : JsonChunkObj) : Option LLMChunk :=
  match o.og_content, o.enriched_content with
  | some og, some enr =>
    some { og_content := some og
           enriched_content := some enr
           weight := match o.weight with
                     | some w => if 1 ≤ w ∧ w ≤ 3 then some w else none
                     | none => none }
  | _, _ => none

def chunkLookup (pj : List (String × JsonChunkObj)) (k : String) : Option JsonChunkObj :=
  (pj.find? (fun kv => kv.1 == k)).map (·.2)

/-- Numeric sort key relation on chunk keys (total and transitive, so the
stable insertion sort below models Python's stable `sorted`). -/
def chunkKeyLE (a b : String) : Prop := (chunkKeyNum a).getD 0 ≤ (chunkKeyNum b).getD 0

instance : DecidableRel chunkKeyLE := fun a b => inferInstanceAs (Decidable (_ ≤ _))

instance : IsTotal String chunkKeyLE := ⟨fun a b => Int.le_total _ _⟩

instance : IsTrans String chunkKeyLE := ⟨fun _ _ _ => Int.le_trans⟩

/-- `chunk_document_with_llm`, from the parsed JSON object onward
(chunker.py:84-123): reject an empty object; sorting the keys raises (and
the whole call returns `none`) when any suffix is non-numeric; otherwise
process the values in numeric key order and return them, failing when no
chunk survives validation. -/
def sortedChunkKeys (pj : List (String × JsonChunkObj)) : List String :=
  List.insertionSort chunkKeyLE (pj.map (·.1))

def chunk_document_with_llm (pj : List (String × JsonChunkObj)) : Option (List LLMChunk) :=
  if pj.isEmpty then none
  else if !(pj.all (fun kv => (chunkKeyNum kv.1).isSome)) then none
  else
    let processed :=
      (sortedChunkKeys pj).filterMap (fun k => (chunkLookup pj k).bind validateChunkObj)
    if processed.isEmpty then none else some processed

/-! ## Two-stage ranking (`calculate_cv_ranking`, ranking_service.py:89-287)

External collaborators — the JD-chunk fetch, the CV-chunk similarity
search, full-text reconstruction and the comparator LLM — are supplied as
an explicit environment.  Similarity scores are rationals. -/

structure CvInfo where
  cv_id : String
  filename : Option String := none
  deriving Repr, DecidableEq

/-- `cv_info.get("filename", f"CV_{cv_id}")` (ranking_service.py:119). -/
def filenameOf (cv : CvInfo) : String := cv.filename.getD ("CV_" ++ cv.cv_id)

/-- One similarity-search hit: payload's `original_doc_id` (possibly
missing) plus the annotated `_score`. -/
structure SearchHit where
  original_doc_id : Option String := none
  score : ℚ := 0
  deriving Repr, DecidableEq

/-- Structured comparator verdict (`LLMJdCvComparisonOutput`,
schemas.py:49-55). -/
structure LlmComparison where
  cv_id : String
  skills_evaluation : List String
  experience_evaluation : List String
  additional_points : List String
  overall_assessment : Option String := none
  llm_ranking_score : Option ℚ := none
  deriving Repr, DecidableEq

/-- A candidate's accumulating result dict as built by the ranking
pipeline.  The purely human-readable `vector_match_details` string is
omitted. -/
structure RankedCv where
  cv_id : String
  filename : String
  initial_vector_score : ℚ
  raw_total_score : ℚ := 0
  match_count : Nat := 0
  llm_skills_evaluation : Option (List String) := none
  llm_experience_evaluation : Option (List String) := none
  llm_additional_points : Option (List String) := none
  llm_overall_assessment : Option String := none
  llm_ranking_score : Option ℚ := none
  deriving Repr, DecidableEq

/-- Ranking environment: results of the external calls.  `searchHits i` is
the similarity search fired for the JD chunk at position `i`; `cvFullText`
and `jdFullText` are the reconstructed texts (`none` models a falsy
result); `llmComparison` is the parsed-and-validated comparator output
(`none` models call failure, empty or unparseable content). -/
structure RankEnv where
  jdChunks : List ChunkPayload
  searchHits : Nat → List SearchHit
  jdFullText : Option String
  cvFullText : String → Option String
  llmComparison : String → Option LlmComparison

/-- One step of the `cv_id_to_filename` dict comprehension: a known key
updates its value in place, a new key is appended. -/
def cvMapStep (acc : List (String × String)) (cv : CvInfo) : List (String × String) :=
  if acc.any (fun p => p.1 == cv.cv_id) then
    acc.map (fun p => if p.1 == cv.cv_id then (p.1, filenameOf cv) else p)
  else acc ++ [(cv.cv_id, filenameOf cv)]

/-- The `cv_id_to_filename` dict comprehension (ranking_service.py:119):
keys in first-occurrence order, value from the last occurrence. -/
def cvIdToFilename (cvs : List CvInfo) : List (String × String) :=
  cvs.foldl cvMapStep []

def activeCvIds (cvs : List CvInfo) : List String := (cvIdToFilename cvs).map (·.1)

/-- Per-CV aggregator slot (ranking_service.py:156-159). -/
structure AggEntry where
  total_score : ℚ := 0
  max_weighted_contribution : ℚ := 0
  match_count : Nat := 0
  filename : String := ""
  deriving Repr, DecidableEq

def initialAgg (cvs : List CvInfo) : List (String × AggEntry) :=
  (cvIdToFilename cvs).map (fun p => (p.1, { filename := p.2 }))

/-- `jd_chunk.get("weight", 1)` then replace by 1 unless an integer in
`[1,3]` (ranking_service.py:168-170). -/
def normWeight (w : Option Int) : Int :=
  if 1 ≤ w.getD 1 ∧ w.getD 1 ≤ 3 then w.getD 1 else 1

/-- The per-hit slot update: add `score² × weight` to the total, bump the
match count, and keep the maximum single weighted contribution
(ranking_service.py:191-196). -/
def hitUpdate (weight : Int) (hit : SearchHit) (e : AggEntry) : AggEntry :=
  { e with
    total_score := e.total_score + hit.score ^ 2 * (weight : ℚ)
    max_weighted_contribution :=
      max e.max_weighted_contribution (hit.score ^ 2 * (weight : ℚ))
    match_count := e.match_count + 1 }

/-- Per-hit aggregator update (ranking_service.py:186-196): skip hits with
a missing or falsy (empty) doc id or one outside the aggregator; otherwise
update that CV's slot. -/
def applyHit (weight : Int) (agg : List (String × AggEntry)) (hit : SearchHit) :
    List (String × AggEntry) :=
  match hit.original_doc_id with
  | none => agg
  | some id =>
    if id == "" then agg
    else agg.map (fun p => if p.1 == id then (p.1, hitUpdate weight hit p.2) else p)

/-- Per-JD-chunk step (ranking_service.py:166-207): blank chunk texts are
skipped without searching; otherwise fold the hits of that chunk's search
into the aggregator. -/
def applyJdChunk (env : RankEnv) (agg : List (String × AggEntry)) (ic : Nat × ChunkPayload) :
    List (String × AggEntry) :=
  if pyStrip ic.2.enriched_text == "" then agg
  else (env.searchHits ic.1).foldl (applyHit (normWeight ic.2.weight)) agg

def runStageOne (env : RankEnv) (cvs : List CvInfo) : List (String × AggEntry) :=
  env.jdChunks.enum.foldl (applyJdChunk env) (initialAgg cvs)

/-- Number of similarity searches stage 1 fires: one per non-blank JD
chunk. -/
def stageOneSearchCalls (env : RankEnv) : Nat :=
  (env.jdChunks.filter (fun c => pyStrip c.enriched_text != "")).length

/-- Aggregator slot to candidate entry (ranking_service.py:216-224): the
stage-1 score is the max weighted contribution. -/
def aggToRanked (p : String × AggEntry) : RankedCv :=
  { cv_id := p.1
    filename := p.2.filename
    initial_vector_score := p.2.max_weighted_contribution
    raw_total_score := p.2.total_score
    match_count := p.2.match_count }

/-- Descending order on the stage-1 vector score (Python's stable
`list.sort(..., reverse=True)`). -/
def vecDesc (a b : RankedCv) : Prop := b.initial_vector_score ≤ a.initial_vector_score

instance : DecidableRel vecDesc := fun a b => inferInstanceAs (Decidable (_ ≤ _))

instance : IsTotal RankedCv vecDesc := ⟨fun a b => le_total _ _⟩

instance : IsTrans RankedCv vecDesc := ⟨fun _ _ _ h h' => le_trans h' h⟩

/-- Descending order on `x.get("llm_ranking_score", 0.0)`
(ranking_service.py:284). -/
def llmDesc (a b : RankedCv) : Prop := b.llm_ranking_score.getD 0 ≤ a.llm_ranking_score.getD 0

instance : DecidableRel llmDesc := fun a b => inferInstanceAs (Decidable (_ ≤ _))

instance : IsTotal RankedCv llmDesc := ⟨fun a b => le_total _ _⟩

instance : IsTrans RankedCv llmDesc := ⟨fun _ _ _ h h' => le_trans h' h⟩

/-- `num_llm_candidates` (ranking_service.py:229). -/
def numLlmCandidates (topN : Option Int) : Nat :=
  match topN with
  | some k => if 0 < k then k.toNat else 5
  | none => 5

/-- The stage-1 candidate pool handed to stage 2 when the vector prefilter
runs (ranking_service.py:209-230): sort all aggregated candidates
descending by max contribution and keep the first `num_llm_candidates`. -/
def stageOnePool (env : RankEnv) (cvs : List CvInfo) (topN : Option Int) : List RankedCv :=
  (List.insertionSort vecDesc ((runStageOne env cvs).map aggToRanked)).take
    (numLlmCandidates topN)

/-- `_get_llm_reasoning_for_single_cv_task` (ranking_service.py:237-267):
demote a candidate whose text cannot be reconstructed or whose comparator
call fails, otherwise copy the verdict fields. -/
def llmAugment (env : RankEnv) (cv : RankedCv) : RankedCv :=
  match env.cvFullText cv.cv_id with
  | none =>
    { cv with
      llm_skills_evaluation := some ["Error: Could not retrieve full CV text."]
      llm_experience_evaluation := some []
      llm_additional_points := some []
      llm_overall_assessment := some "N/A: Could not retrieve full CV text."
      llm_ranking_score := some 0 }
  | some _ =>
    match env.llmComparison cv.cv_id with
    | some r =>
      { cv with
        llm_skills_evaluation := some r.skills_evaluation
        llm_experience_evaluation := some r.experience_evaluation
        llm_additional_points := some r.additional_points
        llm_overall_assessment := r.overall_assessment
        llm_ranking_score := some (r.llm_ranking_score.getD 0) }
    | none =>
      { cv with
        llm_skills_evaluation := some ["Error: LLM reasoning failed."]
        llm_experience_evaluation := some []
        llm_additional_points := some []
        llm_overall_assessment := some "N/A: LLM reasoning failed."
        llm_ranking_score := some 0 }

/-- Stage 2 (ranking_service.py:269-287): when the JD text cannot be
reconstructed the stage-1 pool is returned as-is; otherwise every pool
candidate is augmented concurrently (gathered positionally — modelled as a
map) and the result sorted descending by LLM score. -/
def stageTwo (env : RankEnv) (pool : List RankedCv) : List RankedCv :=
  match env.jdFullText with
  | none => pool
  | some _ => List.insertionSort llmDesc (pool.map (llmAugment env))

/-- Skip-branch entry (ranking_service.py:132-142): neutral placeholder
vector score 0.5. -/
def neutralEntry (cv : CvInfo) : RankedCv :=
  { cv_id := cv.cv_id
    filename := filenameOf cv
    initial_vector_score := 1 / 2
    raw_total_score := 0
    match_count := 0 }

/-- Instrumented outcome of a ranking request: the result plus call counts
for the two prefilter-only external operations. -/
structure RankOutcome where
  result : Option (List RankedCv)
  jdChunkFetches : Nat
  searchCalls : Nat
  deriving Repr

/-- The State-A pool-sizing decision (ranking_service.py:129): skip the
vector prefilter when `top_n` is unset or covers the whole pool. -/
def rankSkipDecision (cvs : List CvInfo) (topN : Option Int) : Bool :=
  match topN with
  | none => true
  | some k => ((activeCvIds cvs).length : Int) ≤ k

/-- `calculate_cv_ranking` (ranking_service.py:89-287).  The prefilter is
bypassed exactly when `top_n` is unset or at least the pool size; the
skip branch feeds every candidate to stage 2 with the neutral score. -/
def calculate_cv_ranking (env : RankEnv) (cvs : List CvInfo) (topN : Option Int) :
    RankOutcome :=
  if cvs.isEmpty then ⟨some [], 0, 0⟩
  else if (activeCvIds cvs).isEmpty then ⟨some [], 0, 0⟩
  else if rankSkipDecision cvs topN then
    ⟨some (stageTwo env (cvs.map neutralEntry)), 0, 0⟩
  else if env.jdChunks.isEmpty then ⟨none, 1, 0⟩
  else if (stageOnePool env cvs topN).isEmpty then ⟨some [], 1, stageOneSearchCalls env⟩
  else ⟨some (stageTwo env (stageOnePool env cvs topN)), 1, stageOneSearchCalls env⟩

/-- Spec-side description of one JD chunk's query: the weighted
contributions `score² × weight` the named CV receives from that chunk's
similarity hits (none when the chunk text is blank, since no search is
fired). -/
def chunkContribs (env : RankEnv) (ic : Nat × ChunkPayload) (cvId : String) : List ℚ :=
  if pyStrip ic.2.enriched_text == "" then []
  else (env.searchHits ic.1).filterMap (fun h =>
    if h.original_doc_id == some cvId then
      some (h.score ^ 2 * (normWeight ic.2.weight : ℚ))
    else none)

/-- Spec-side description of stage 1: the flat list of weighted
contributions `score² × weight` that the named CV receives across all
JD-chunk queries. -/
def cvContributions (env : RankEnv) (cvId : String) : List ℚ :=
  (env.jdChunks.enum.map (fun ic => chunkContribs env ic cvId)).flatten

/-- The aggregator's max-weighted-contribution slot for a CV id. -/
def aggMax (agg : List (String × AggEntry)) (id : String) : ℚ :=
  ((agg.find? (fun p => p.1 == id)).map (fun p => p.2.max_weighted_contribution)).getD 0

/-! ## CV ingestion retry loop (`process_single_cv_async`, routes.py:342-441) -/

/-- Observable actions of one ingestion run, in order. -/
inductive IngestEv where
  | dbWrite (attempt : Nat) : IngestEv
  | llmParse (attempt : Nat) : IngestEv
  | sleep (seconds : Nat) : IngestEv
  deriving Repr, DecidableEq

/-- Outcome environment: per attempt, whether `add_cv_to_db` returns an id
and whether `parse_cv_with_llm` yields usable structured data. -/
structure IngestEnv where
  dbOk : Nat → Bool
  parseOk : Nat → Bool

/-- `LocalCVUploadResult` fields the claim is about. -/
structure IngestResult where
  cv_id : Option String
  success : Bool
  deriving Repr, DecidableEq

def maxAttempts : Nat := 2

def retryDelaySeconds : Nat := 2

/-- The `for attempt in range(max_attempts)` loop (routes.py:352-432):
`remaining + 1` iterations left, current attempt number `attempt`.  On DB
failure the *whole* sequence is retried after a sleep; on parse failure
after a successful DB write the loop also `continue`s to the top — which
re-runs the DB write; the final responses differ: a terminal parse failure
still reports the CV id (the DB write happened), a terminal DB failure
reports none. -/
def ingestLoop (env : IngestEnv) (cvId : String) : Nat → Nat → IngestResult × List IngestEv
  | _, 0 => (⟨none, false⟩, [])
  | attempt, remaining + 1 =>
    if !env.dbOk attempt then
      if remaining = 0 then (⟨none, false⟩, [.dbWrite attempt])
      else
        let next := ingestLoop env cvId (attempt + 1) remaining
        (next.1, .dbWrite attempt :: .sleep retryDelaySeconds :: next.2)
    else if !env.parseOk attempt then
      if remaining = 0 then
        (⟨some cvId, false⟩, [.dbWrite attempt, .llmParse attempt])
      else
        let next := ingestLoop env cvId (attempt + 1) remaining
        (next.1, .dbWrite attempt :: .llmParse attempt :: .sleep retryDelaySeconds :: next.2)
    else (⟨some cvId, true⟩, [.dbWrite attempt, .llmParse attempt])

/-- `process_single_cv_async`. -/
def process_single_cv_async (env : IngestEnv) (cvId : String) : IngestResult × List IngestEv :=
  ingestLoop env cvId 0 maxAttempts

def isDbWrite : IngestEv → Bool
  | .dbWrite _ => true
  | _ => false

def isSleep : IngestEv → Bool
  | .sleep _ => true
  | _ => false

/-! ## Vector store state (upsert / scroll), for the duplicate-persistence
claim (`qdrant_client.upsert`, `get_qdrantchunk_content`) -/

/-- The collection's point set, in insertion order, plus the next fresh
point id (random UUIDs are modelled as a fresh-id counter: each generated
id differs from every id generated before). -/
structure Store where
  points : List Point := []
  nextId : Nat := 0
  deriving Repr

/-- Qdrant point upsert: replace the point with the same id, or append. -/
def upsertPoint (ps : List Point) (p : Point) : List Point :=
  if ps.any (fun q => q.pid == p.pid) then ps.map (fun q => if q.pid == p.pid then p else q)
  else ps ++ [p]

def upsertPoints (ps newPts : List Point) : List Point := newPts.foldl upsertPoint ps

/-- `_process_chunks_for_vector_db` acting on a store: on success the
points are upserted and the id counter advances. -/
def persistToStore (st : Store) (docId : String) (isJd : Bool) (embed : String → List ℚ)
    (chunks : List LLMChunk) : Bool × Store :=
  if (processChunksForVectorDb docId isJd embed st.nextId true chunks).1 then
    (true,
      ⟨upsertPoints st.points (processChunksForVectorDb docId isJd embed st.nextId true chunks).2,
        st.nextId + (processChunksForVectorDb docId isJd embed st.nextId true chunks).2.length⟩)
  else (false, st)

/-- `get_qdrantchunk_content` (vectordb_client.py:237-296): the paginated
scroll filtered by `original_doc_id`, collapsed to its net effect — all
matching payloads in store order. -/
def get_qdrantchunk_content (st : Store) (docId : String) : List ChunkPayload :=
  (st.points.filter (fun p => p.payload.original_doc_id == docId)).map (·.payload)

/-! ## Theorems -/

/-- C6: `get_embedding` never raises past its boundary — the returned
vector always has the configured dimensionality, every failure mode (blank
input, missing API key, exception/timeout, non-200 status, malformed body,
dimension mismatch) yields the zero vector, and blank input short-circuits
without contacting the endpoint at all. -/
theorem get_embedding_zero_fallback :
    (∀ text apiKey api, (get_embedding text apiKey api).vector.length = EMBEDDING_DIMENSIONS) ∧
    (∀ text apiKey api, pyStrip text = "" →
      get_embedding text apiKey api = ⟨false, zeroVector⟩) ∧
    (∀ text apiKey api, truthyStr apiKey = false →
      (get_embedding text apiKey api).vector = zeroVector) ∧
    (∀ text apiKey, (get_embedding text apiKey .raised).vector = zeroVector) ∧
    (∀ text apiKey status emb, status ≠ 200 →
      (get_embedding text apiKey (.response status emb)).vector = zeroVector) ∧
    (∀ text apiKey status, (get_embedding text apiKey (.response status none)).vector =
      zeroVector) ∧
    (∀ text apiKey status v, v.length ≠ EMBEDDING_DIMENSIONS →
      (get_embedding text apiKey (.response status (some v))).vector = zeroVector) := by
  refine ⟨?_, ?_, ?_, ?_, ?_, ?_, ?_⟩
  · intro text apiKey api
    by_cases h1 : pyStrip text = ""
    · simp [get_embedding, h1, zeroVector]
    · by_cases h2 : truthyStr apiKey
      · cases api with
        | raised => simp [get_embedding, h1, h2, zeroVector]
        | response status emb =>
          by_cases h3 : status = 200
          · cases emb with
            | none => simp [get_embedding, h1, h2, h3, zeroVector]
            | some v =>
              by_cases h4 : v.length = EMBEDDING_DIMENSIONS
              · simp [get_embedding, h1, h2, h3, h4]
              · simp [get_embedding, h1, h2, h3, h4, zeroVector]
          · simp [get_embedding, h1, h2, h3, zeroVector]
      · simp [get_embedding, h1, h2, zeroVector]
  · intro text apiKey api h1
    simp [get_embedding, h1]
  · intro text apiKey api h2
    by_cases h1 : pyStrip text = "" <;> simp [get_embedding, h1, h2]
  · intro text apiKey
    by_cases h1 : pyStrip text = "" <;> by_cases h2 : truthyStr apiKey <;>
      simp [get_embedding, h1, h2]
  · intro text apiKey status emb h3
    by_cases h1 : pyStrip text = "" <;> by_cases h2 : truthyStr apiKey <;>
      cases emb <;> simp [get_embedding, h1, h2, h3]
  · intro text apiKey status
    by_cases h1 : pyStrip text = "" <;> by_cases h2 : truthyStr apiKey <;>
      by_cases h3 : status = 200 <;> simp [get_embedding, h1, h2, h3]
  · intro text apiKey status v h4
    by_cases h1 : pyStrip text = "" <;> by_cases h2 : truthyStr apiKey <;>
      by_cases h3 : status = 200 <;> simp [get_embedding, h1, h2, h3, h4]

/-- C6 witness: the spec's concrete scenario — the backend answers HTTP 500
and `get_embedding` returns the all-zero vector of the configured
dimensionality. -/
theorem get_embedding_zero_fallback_witness :
    (get_embedding "some text" (some "key") (.response 500 (some [1, 2]))).vector = zeroVector ∧
    0 < zeroVector.length := by
  refine ⟨get_embedding_zero_fallback.2.2.2.2.1 "some text" (some "key") 500 (some [1, 2])
    (by decide), by rw [zeroVector, List.length_replicate]; norm_num [EMBEDDING_DIMENSIONS]⟩

/-- Concrete parsed chunking response used for the key-ordering scenario:
keys arrive as chunk-2, chunk-10, chunk-1. -/
def pjScenario : List (String × JsonChunkObj) :=
  [("chunk-2", { og_content := some "og two", enriched_content := some "en two" }),
   ("chunk-10", { og_content := some "og ten", enriched_content := some "en ten" }),
   ("chunk-1", { og_content := some "og one", enriched_content := some "en one" })]

/-- C9: the chunker orders chunks by the numeric value of each key's suffix
after the last hyphen.  The key list it processes is sorted under the
numeric-suffix order and is a permutation of the response's keys; the
returned chunks are exactly the validated values in that key order; and on
the spec's concrete scenario `["chunk-2","chunk-10","chunk-1"]` the output
order is chunk-1, chunk-2, chunk-10 (numeric, not lexical). -/
theorem chunker_numeric_key_order :
    (∀ pj : List (String × JsonChunkObj),
      List.Sorted chunkKeyLE (sortedChunkKeys pj) ∧ (sortedChunkKeys pj).Perm (pj.map (·.1))) ∧
    (∀ pj l, chunk_document_with_llm pj = some l →
      l = (sortedChunkKeys pj).filterMap (fun k => (chunkLookup pj k).bind validateChunkObj)) ∧
    chunk_document_with_llm pjScenario =
      some [{ og_content := some "og one", enriched_content := some "en one" },
            { og_content := some "og two", enriched_content := some "en two" },
            { og_content := some "og ten", enriched_content := some "en ten" }] := by
  refine ⟨?_, ?_, by decide⟩
  · intro pj
    exact ⟨List.sorted_insertionSort chunkKeyLE _, List.perm_insertionSort chunkKeyLE _⟩
  · intro pj l h
    unfold chunk_document_with_llm at h
    by_cases h1 : pj.isEmpty
    · simp [h1] at h
    · by_cases h2 : pj.all (fun kv => (chunkKeyNum kv.1).isSome)
      · simp only [h1, h2, Bool.not_true, Bool.false_eq_true, if_false] at h
        split at h
        · exact absurd h (by simp)
        · exact (Option.some_inj.mp h).symm
      · simp [h1, h2] at h

/-- C9 witness: instantiating the key-order characterization on the
concrete scenario response. -/
theorem chunker_numeric_key_order_witness :
    [({ og_content := some "og one", enriched_content := some "en one" } : LLMChunk),
     { og_content := some "og two", enriched_content := some "en two" },
     { og_content := some "og ten", enriched_content := some "en ten" }] =
      (sortedChunkKeys pjScenario).filterMap
        (fun k => (chunkLookup pjScenario k).bind validateChunkObj) :=
  chunker_numeric_key_order.2.1 pjScenario _ (by decide)

/-- Ingestion environment in which the DB write always succeeds and the
LLM parse always fails. -/
def envParseAlwaysFails : IngestEnv := ⟨fun _ => true, fun _ => false⟩

/-- C8 counterexample: with a successful DB write and a failing parse on
attempt 0, the retry re-runs the *whole* sequence — the trace contains a
second `dbWrite` on attempt 1, refuting "only the parse is retried and the
existing DB write is kept (not redone)". -/
theorem ingestion_retry_redoes_db_write :
    (process_single_cv_async envParseAlwaysFails "cv1").2 =
      [.dbWrite 0, .llmParse 0, .sleep 2, .dbWrite 1, .llmParse 1] ∧
    ((process_single_cv_async envParseAlwaysFails "cv1").2.countP isDbWrite) = 2 ∧
    envParseAlwaysFails.dbOk 0 = true ∧ envParseAlwaysFails.parseOk 0 = false := by
  decide

/-- C8 amended: ingestion makes at most two attempts with a fixed 2-second
delay between them, but on *either* failure mode (DB write failed, or LLM
parse failed after a successful DB write) it retries the whole
persist+parse sequence, re-running the DB write.  The two failure modes
are distinguished only in the terminal response: exhausted parse failures
still report the CV id (the successful DB write is kept in the store),
exhausted DB failures report no id. -/
theorem ingestion_retry_amended (env : IngestEnv) (cvId : String) :
    ((process_single_cv_async env cvId).2.countP isDbWrite ≤ 2) ∧
    (∀ e ∈ (process_single_cv_async env cvId).2, isSleep e = true →
      e = .sleep retryDelaySeconds) ∧
    ((process_single_cv_async env cvId).2.countP isSleep ≤ 1) ∧
    (env.dbOk 0 = true → env.parseOk 0 = true →
      process_single_cv_async env cvId = (⟨some cvId, true⟩, [.dbWrite 0, .llmParse 0])) ∧
    (env.dbOk 0 = true → env.parseOk 0 = false → env.dbOk 1 = true → env.parseOk 1 = false →
      (process_single_cv_async env cvId).1 = ⟨some cvId, false⟩ ∧
      (process_single_cv_async env cvId).2.countP isDbWrite = 2) ∧
    (env.dbOk 0 = false → env.dbOk 1 = false →
      (process_single_cv_async env cvId).1 = ⟨none, false⟩) := by
  cases h0 : env.dbOk 0 <;> cases h1 : env.parseOk 0 <;>
    cases h2 : env.dbOk 1 <;> cases h3 : env.parseOk 1 <;>
    simp [process_single_cv_async, ingestLoop, maxAttempts, retryDelaySeconds,
      h0, h1, h2, h3, isDbWrite, isSleep, List.countP, List.countP.go]

/-- C8 witness: the amended retry behaviour instantiated on the
all-parse-failures environment. -/
theorem ingestion_retry_amended_witness :
    (process_single_cv_async envParseAlwaysFails "cv1").1 = ⟨some "cv1", false⟩ ∧
    (process_single_cv_async envParseAlwaysFails "cv1").2.countP isDbWrite = 2 :=
  (ingestion_retry_amended envParseAlwaysFails "cv1").2.2.2.2.1 rfl rfl rfl rfl

/-- A trivial embedding oracle for concrete persistence scenarios. -/
def embed0 : String → List ℚ := fun _ => [1]

/-- Chunk list whose first chunk has whitespace-only (but non-empty, hence
truthy) enriched content: it passes the up-front guard yet is skipped in
the loop. -/
def chunksWithBlankEnriched : List LLMChunk :=
  [{ og_content := some "first part", enriched_content := some " " },
   { og_content := some "second part", enriched_content := some "Second enriched." }]

/-- C2 counterexample: a successful persist call whose stored chunk_index
values are `[1]` — not `0..N-1` for `N = 1` persisted chunk — and whose
stored `total_chunks_for_doc` is 2, not the number of chunks actually
persisted.  (`chunk_index` is the position in the *input* list and the
total is the *input* length; skipping a whitespace-only enriched chunk
leaves a gap and an overcount.) -/
theorem chunk_index_gap_counterexample :
    (processChunksForVectorDb "doc1" true embed0 0 true chunksWithBlankEnriched).1 = true ∧
    ((processChunksForVectorDb "doc1" true embed0 0 true chunksWithBlankEnriched).2.map
      (fun p => p.payload.chunk_index)) = [some 1] ∧
    (processChunksForVectorDb "doc1" true embed0 0 true chunksWithBlankEnriched).2.length = 1 ∧
    ((processChunksForVectorDb "doc1" true embed0 0 true chunksWithBlankEnriched).2.map
      (fun p => p.payload.chunk_index)) ≠
      ((List.range (processChunksForVectorDb "doc1" true embed0 0 true
        chunksWithBlankEnriched).2.length).map (fun i => some (i : Int))) ∧
    ¬ (∀ p ∈ (processChunksForVectorDb "doc1" true embed0 0 true chunksWithBlankEnriched).2,
        p.payload.total_chunks_for_doc =
          (processChunksForVectorDb "doc1" true embed0 0 true chunksWithBlankEnriched).2.length) := by
  decide

/-- C2 amended: on every successful persist call the stored `chunk_index`
values are the *positions in the input chunk list* of the chunks with
non-blank enriched text (so skipping leaves gaps), and every stored
`total_chunks_for_doc` equals the *input* chunk count; only when no chunk
is skipped (every enriched text non-blank after stripping) are the indices
exactly `0..N-1` for `N` = input count = persisted count. -/
theorem chunk_index_amended (docId : String) (isJd : Bool) (embed : String → List ℚ)
    (firstId : Nat) (upsertOk : Bool) (chunks : List LLMChunk)
    (h : (processChunksForVectorDb docId isJd embed firstId upsertOk chunks).1 = true) :
    ((processChunksForVectorDb docId isJd embed firstId upsertOk chunks).2.map
      (fun p => p.payload.chunk_index)) =
      (keptIndexed chunks).map (fun ic => some (ic.1 : Int)) ∧
    (∀ p ∈ (processChunksForVectorDb docId isJd embed firstId upsertOk chunks).2,
      p.payload.total_chunks_for_doc = chunks.length) ∧
    ((∀ c ∈ chunks, keptChunk c = true) →
      ((processChunksForVectorDb docId isJd embed firstId upsertOk chunks).2.map
        (fun p => p.payload.chunk_index)) =
        (List.range chunks.length).map (fun (i : Nat) => some (i : Int)) ∧
      (processChunksForVectorDb docId isJd embed firstId upsertOk chunks).2.length =
        chunks.length) := by
  have hpts : (processChunksForVectorDb docId isJd embed firstId upsertOk chunks).2 =
      processChunksPoints docId isJd embed firstId chunks := by
    unfold processChunksForVectorDb at h ⊢
    by_cases hg : chunksGuardOk chunks
    · simp only [hg, Bool.not_true, Bool.false_eq_true, if_false] at h ⊢
      split at h
      · simp at h
      · split
        · next hempty _ => simp_all
        · rfl
    · simp [hg] at h
  have hidx : (processChunksPoints docId isJd embed firstId chunks).map
      (fun p => p.payload.chunk_index) =
      (keptIndexed chunks).map (fun ic => some (ic.1 : Int)) := by
    simp only [processChunksPoints, List.map_map]
    conv_rhs => rw [← List.enum_map_snd (keptIndexed chunks), List.map_map]
    rfl
  have hlen : (processChunksPoints docId isJd embed firstId chunks).length =
      (keptIndexed chunks).length := by
    simp [processChunksPoints]
  rw [hpts]
  refine ⟨hidx, ?_, ?_⟩
  · intro p hp
    simp only [processChunksPoints, List.mem_map] at hp
    rcases hp with ⟨jic, _, rfl⟩
    simp [chunkPayloadAt]
  · intro hall
    have hfil : keptIndexed chunks = chunks.enum := by
      unfold keptIndexed
      apply List.filter_eq_self.mpr
      intro ic hic
      have h2 : ic.2 ∈ chunks.enum.map Prod.snd := List.mem_map_of_mem Prod.snd hic
      rw [List.enum_map_snd] at h2
      exact hall ic.2 h2
    constructor
    · rw [hidx, hfil]
      conv_rhs => rw [← List.enum_map_fst chunks, List.map_map]
      rfl
    · rw [hlen, hfil, List.enum_length]

/-- C2 witness: the amended index characterization on the gap scenario —
the kept positions are `[1]` and the stored totals are the input count. -/
theorem chunk_index_amended_witness :
    ((processChunksForVectorDb "doc1" true embed0 0 true chunksWithBlankEnriched).2.map
      (fun p => p.payload.chunk_index)) =
      (keptIndexed chunksWithBlankEnriched).map (fun ic => some (ic.1 : Int)) ∧
    (∀ p ∈ (processChunksForVectorDb "doc1" true embed0 0 true chunksWithBlankEnriched).2,
      p.payload.total_chunks_for_doc = chunksWithBlankEnriched.length) :=
  ⟨(chunk_index_amended "doc1" true embed0 0 true chunksWithBlankEnriched (by decide)).1,
   (chunk_index_amended "doc1" true embed0 0 true chunksWithBlankEnriched (by decide)).2.1⟩

/-- Chunk list whose first chunk has an *empty* (falsy) enriched content
while the second is perfectly valid. -/
def chunksWithEmptyEnriched : List LLMChunk :=
  [{ og_content := some "first part", enriched_content := some "" },
   { og_content := some "second part", enriched_content := some "Second enriched." }]

/-- C7 counterexample: a chunk with empty enriched text is *not*
individually skipped — the up-front guard fails the whole persist call, no
point is built, and the remaining valid chunk is not upserted (persisting
just that valid chunk alone succeeds with one point), refuting both
"each individual chunk with empty enriched text is skipped while the
remaining chunks are still embedded and upserted" and "returns false
exactly when zero points result". -/
theorem persist_empty_enriched_counterexample :
    processChunksForVectorDb "doc1" true embed0 0 true chunksWithEmptyEnriched = (false, []) ∧
    keptChunk { og_content := some "second part",
                enriched_content := some "Second enriched." } = true ∧
    (processChunksForVectorDb "doc1" true embed0 0 true
      [{ og_content := some "second part", enriched_content := some "Second enriched." }]).1 =
      true ∧
    (processChunksForVectorDb "doc1" true embed0 0 true
      [{ og_content := some "second part", enriched_content := some "Second enriched." }]).2.length
      = 1 := by
  decide

/-- C7 amended: once the up-front guard passes (no chunk has missing or
empty enriched content), whitespace-only enriched chunks are individually
skipped while the remaining chunks are embedded and upserted; the call
returns false exactly when zero points result or the store upsert fails;
and the `weight` field is attached (defaulting to 1) exactly when the
target is the JD collection. -/
theorem persist_skip_amended (docId : String) (isJd : Bool) (embed : String → List ℚ)
    (firstId : Nat) (upsertOk : Bool) (chunks : List LLMChunk)
    (hg : chunksGuardOk chunks = true) :
    ((processChunksForVectorDb docId isJd embed firstId upsertOk chunks).1 = true ↔
      (keptIndexed chunks ≠ [] ∧ upsertOk = true)) ∧
    ((processChunksForVectorDb docId isJd embed firstId upsertOk chunks).2.map
      (fun p => (p.payload.chunk_index, p.payload.og_text, p.payload.enriched_text)) =
      (keptIndexed chunks).map
        (fun ic => (some (ic.1 : Int), some (ogTextOf ic.2), enrichedTextOf ic.2))) ∧
    ((processChunksForVectorDb docId isJd embed firstId upsertOk chunks).2.map
      (fun p => p.payload.weight) =
      (keptIndexed chunks).map
        (fun ic => if isJd then some (ic.2.weight.getD 1) else none)) := by
  have hpoints : (processChunksForVectorDb docId isJd embed firstId upsertOk chunks).2 =
      processChunksPoints docId isJd embed firstId chunks := by
    unfold processChunksForVectorDb
    simp only [hg, Bool.not_true, Bool.false_eq_true, if_false]
    split
    · next hempty => rw [List.isEmpty_iff] at hempty; rw [hempty]
    · rfl
  have hfst : (processChunksForVectorDb docId isJd embed firstId upsertOk chunks).1 =
      (!(processChunksPoints docId isJd embed firstId chunks).isEmpty && upsertOk) := by
    unfold processChunksForVectorDb
    simp only [hg, Bool.not_true, Bool.false_eq_true, if_false]
    split
    · next hempty => simp [hempty]
    · next hempty => simp [hempty]
  refine ⟨?_, ?_, ?_⟩
  · rw [hfst]
    have hne : (processChunksPoints docId isJd embed firstId chunks).isEmpty = false ↔
        keptIndexed chunks ≠ [] := by
      rw [Bool.eq_false_iff, ne_eq, List.isEmpty_iff]
      unfold processChunksPoints
      simp
    constructor
    · intro hb
      rcases Bool.and_eq_true_iff.mp hb with ⟨h1, h2⟩
      exact ⟨hne.mp (by simpa using h1), h2⟩
    · rintro ⟨h1, h2⟩
      rw [h2, Bool.and_true]
      simpa using hne.mpr h1
  · rw [hpoints]
    simp only [processChunksPoints, List.map_map]
    conv_rhs => rw [← List.enum_map_snd (keptIndexed chunks), List.map_map]
    rfl
  · rw [hpoints]
    simp only [processChunksPoints, List.map_map]
    conv_rhs => rw [← List.enum_map_snd (keptIndexed chunks), List.map_map]
    rfl

/-- C7 witness: the amended behaviour on the whitespace-skip scenario — the
guard passes, one point results from the two input chunks, and the persist
call succeeds. -/
theorem persist_skip_amended_witness :
    ((processChunksForVectorDb "doc1" true embed0 0 true chunksWithBlankEnriched).1 = true ↔
      (keptIndexed chunksWithBlankEnriched ≠ [] ∧ true = true)) ∧
    ((processChunksForVectorDb "doc1" true embed0 0 true chunksWithBlankEnriched).2.map
      (fun p => p.payload.weight) =
      (keptIndexed chunksWithBlankEnriched).map
        (fun ic => if true then some (ic.2.weight.getD 1) else none)) :=
  ⟨(persist_skip_amended "doc1" true embed0 0 true chunksWithBlankEnriched (by decide)).1,
   (persist_skip_amended "doc1" true embed0 0 true chunksWithBlankEnriched (by decide)).2.2⟩

/-- Strict index order, with equality allowed only between equal payloads:
an antisymmetric order used to pin down the sorted arrangement. -/
def chunkIdxLtEq (a b : ChunkPayload) : Prop := indexKey a < indexKey b ∨ a = b

instance : IsAntisymm ChunkPayload chunkIdxLtEq :=
  ⟨by
    intro a b h h'
    rcases h with h | h
    · rcases h' with h' | h'
      · exact absurd (lt_trans h h') (lt_irrefl _)
      · exact h'.symm
    · exact h⟩

/-- In a list that is pairwise strictly increasing on `indexKey`, two
members with the same key are the same payload. -/
theorem strict_pairwise_idx_unique (m : List ChunkPayload)
    (hm : List.Pairwise (fun a b => indexKey a < indexKey b) m) :
    ∀ a ∈ m, ∀ b ∈ m, indexKey a = indexKey b → a = b := by
  have hne : List.Pairwise (fun a b => indexKey a ≠ indexKey b) m :=
    hm.imp (fun h => ne_of_lt h)
  have hsymm : Symmetric (fun a b : ChunkPayload => indexKey a ≠ indexKey b) :=
    fun _ _ h e => h e.symm
  intro a ha b hb hab
  by_contra hne'
  exact (hne.forall hsymm ha hb hne') hab

/-- Stable sorting any permutation of a list whose arrangement is pinned by
`chunkIdxLtEq` recovers that arrangement. -/
theorem sortChunksByIndex_eq_of_perm (l m : List ChunkPayload)
    (hperm : l.Perm m) (hm : List.Pairwise chunkIdxLtEq m)
    (huniq : ∀ a ∈ l, ∀ b ∈ l, indexKey a = indexKey b → a = b) :
    sortChunksByIndex l = m := by
  have hsorted : List.Sorted chunkIdxLE (sortChunksByIndex l) :=
    List.sorted_insertionSort chunkIdxLE l
  have hmem : ∀ x ∈ sortChunksByIndex l, x ∈ l := fun x hx =>
    (List.mem_insertionSort chunkIdxLE).mp hx
  have hsorted' : List.Sorted chunkIdxLtEq (sortChunksByIndex l) := by
    refine List.Pairwise.imp_of_mem ?_ hsorted
    intro a b ha hb hab
    have hab' : indexKey a ≤ indexKey b := hab
    rcases lt_or_eq_of_le hab' with h | h
    · exact Or.inl h
    · exact Or.inr (huniq a (hmem a ha) b (hmem b hb) h)
  exact List.eq_of_perm_of_sorted ((List.perm_insertionSort chunkIdxLE l).trans hperm)
    hsorted' hm

/-- Positions kept by the persist loop are strictly increasing, so the
payload indices of the produced points are strictly increasing. -/
theorem keptIndexed_enum_strict (chunks : List LLMChunk) :
    List.Pairwise (fun a b : Nat × (Nat × LLMChunk) => a.2.1 < b.2.1)
      (keptIndexed chunks).enum := by
  have h1 : List.Pairwise (fun a b : Nat × LLMChunk => a.1 < b.1) chunks.enum := by
    have h0 := List.pairwise_lt_range chunks.length
    rw [← List.enum_map_fst chunks] at h0
    exact List.pairwise_map.mp h0
  have h2 : List.Pairwise (fun a b : Nat × LLMChunk => a.1 < b.1) (keptIndexed chunks) :=
    List.Pairwise.sublist (List.filter_sublist _) h1
  rw [← List.enum_map_snd (keptIndexed chunks)] at h2
  exact (List.pairwise_map (f := Prod.snd)).mp h2

theorem persisted_payloads_strict (docId : String) (isJd : Bool) (embed : String → List ℚ)
    (firstId : Nat) (chunks : List LLMChunk) :
    List.Pairwise (fun a b => indexKey a < indexKey b)
      ((processChunksPoints docId isJd embed firstId chunks).map (·.payload)) := by
  simp only [processChunksPoints, List.map_map]
  rw [List.pairwise_map]
  refine (keptIndexed_enum_strict chunks).imp ?_
  intro a b h
  simpa [chunkPayloadAt, indexKey] using h

theorem persisted_payloads_valid (docId : String) (isJd : Bool) (embed : String → List ℚ)
    (firstId : Nat) (chunks : List LLMChunk) :
    ∀ c ∈ (processChunksPoints docId isJd embed firstId chunks).map (·.payload),
      hasValidIndex c = true := by
  intro c hc
  simp only [processChunksPoints, List.map_map, List.mem_map] at hc
  rcases hc with ⟨jic, _, rfl⟩
  simp [chunkPayloadAt, hasValidIndex]

/-- C1: full-text reconstruction.
(1) For any list of persisted chunks — distinct integer indices listed in
ascending order, every og_text usable — fetching them in *any* order
reconstructs exactly the og_texts joined with a blank line in ascending
`chunk_index` order.
(2) A chunk without a valid integer index is excluded without aborting:
dropping it from the fetched list never changes the result.
(3) The result is `none` exactly when no chunks were fetched or no chunk
(with a valid index) contributes usable original text.
(4) Chunk lists produced by the persist operation always satisfy the shape
required by (1): strictly ascending integer indices. -/
theorem reconstruct_full_text :
    (∀ (P l : List ChunkPayload), P ≠ [] →
      List.Pairwise (fun a b => indexKey a < indexKey b) P →
      (∀ c ∈ P, hasValidIndex c = true) →
      (∀ c ∈ P, usableOgText c = true) →
      l.Perm P →
      get_full_document_text_from_db l = some (pyJoin "\n\n" (P.map ogTextPart))) ∧
    (∀ (c : ChunkPayload) (l₁ l₂ : List ChunkPayload), hasValidIndex c = false →
      get_full_document_text_from_db (l₁ ++ c :: l₂) =
        get_full_document_text_from_db (l₁ ++ l₂)) ∧
    (∀ l : List ChunkPayload, get_full_document_text_from_db l = none ↔
      ∀ c ∈ l, ¬(hasValidIndex c = true ∧ usableOgText c = true)) ∧
    (∀ (docId : String) (isJd : Bool) (embed : String → List ℚ) (firstId : Nat)
      (chunks : List LLMChunk),
      List.Pairwise (fun a b => indexKey a < indexKey b)
        ((processChunksPoints docId isJd embed firstId chunks).map (·.payload)) ∧
      ∀ c ∈ (processChunksPoints docId isJd embed firstId chunks).map (·.payload),
        hasValidIndex c = true) := by
  have hparts_nil : ∀ l : List ChunkPayload,
      fullTextParts l = [] ↔ ∀ c ∈ l, ¬(hasValidIndex c = true ∧ usableOgText c = true) := by
    intro l
    rw [fullTextParts, List.map_eq_nil_iff, List.filter_eq_nil_iff]
    constructor
    · intro h c hc hboth
      exact h c ((List.mem_insertionSort _).mpr (List.mem_filter.mpr ⟨hc, hboth.1⟩)) hboth.2
    · intro h a ha hus
      have ha' := List.mem_filter.mp ((List.mem_insertionSort _).mp ha)
      exact h a ha'.1 ⟨ha'.2, hus⟩
  refine ⟨?_, ?_, ?_, ?_⟩
  · intro P l hPne hstrict hvalid husable hperm
    have hlne : l ≠ [] := by
      intro h
      subst h
      exact hPne hperm.symm.eq_nil
    have hfilter : l.filter hasValidIndex = l :=
      List.filter_eq_self.mpr (fun a ha => hvalid a (hperm.mem_iff.mp ha))
    have hsort : sortChunksByIndex (l.filter hasValidIndex) = P := by
      rw [hfilter]
      refine sortChunksByIndex_eq_of_perm l P hperm
        (hstrict.imp (fun h => Or.inl h)) ?_
      intro a ha b hb
      exact strict_pairwise_idx_unique P hstrict a (hperm.mem_iff.mp ha) b (hperm.mem_iff.mp hb)
    have hpartsp : fullTextParts l = P.map ogTextPart := by
      rw [fullTextParts, hsort, List.filter_eq_self.mpr husable]
    unfold get_full_document_text_from_db
    rw [if_neg (by simpa [List.isEmpty_iff] using hlne), hpartsp,
      if_neg (by simp [List.isEmpty_iff, hPne])]
  · intro c l₁ l₂ hc
    have hfil : (l₁ ++ c :: l₂).filter hasValidIndex = (l₁ ++ l₂).filter hasValidIndex := by
      simp [List.filter_append, hc]
    have hparts : fullTextParts (l₁ ++ c :: l₂) = fullTextParts (l₁ ++ l₂) := by
      rw [fullTextParts, fullTextParts, hfil]
    by_cases h : l₁ ++ l₂ = []
    · rcases List.append_eq_nil.mp h with ⟨h1, h2⟩
      subst h1
      subst h2
      have : fullTextParts [c] = [] := by
        simp [fullTextParts, List.filter, hc]
      simp [get_full_document_text_from_db, this]
    · unfold get_full_document_text_from_db
      rw [hparts]
      simp [List.isEmpty_iff, h]
  · intro l
    by_cases hl : l = []
    · subst hl
      simp [get_full_document_text_from_db]
    · unfold get_full_document_text_from_db
      rw [if_neg (by simpa [List.isEmpty_iff] using hl), ← hparts_nil l]
      constructor
      · intro h
        by_contra hne
        rw [if_neg (by simpa [List.isEmpty_iff] using hne)] at h
        exact Option.some_ne_none _ h
      · intro h
        rw [if_pos (by simpa [List.isEmpty_iff] using h)]
  · intro docId isJd embed firstId chunks
    exact ⟨persisted_payloads_strict docId isJd embed firstId chunks,
      persisted_payloads_valid docId isJd embed firstId chunks⟩

/-- C1 witness: two persisted chunks fetched in reversed order still
reconstruct in ascending index order. -/
theorem reconstruct_full_text_witness :
    get_full_document_text_from_db
      [{ original_doc_id := "d", chunk_index := some 1, og_text := some "beta" },
       { original_doc_id := "d", chunk_index := some 0, og_text := some "alpha" }] =
      some "alpha\n\nbeta" :=
  (reconstruct_full_text.1
    [{ original_doc_id := "d", chunk_index := some 0, og_text := some "alpha" },
     { original_doc_id := "d", chunk_index := some 1, og_text := some "beta" }]
    [{ original_doc_id := "d", chunk_index := some 1, og_text := some "beta" },
     { original_doc_id := "d", chunk_index := some 0, og_text := some "alpha" }]
    (by decide) (by decide) (by decide) (by decide) (by decide)).trans (by decide)

/-- The augmentation step only fills in the LLM fields: identity, filename
and stage-1 scores are untouched, and a (possibly zero) LLM score is always
set. -/
theorem llmAugment_preserves (env : RankEnv) (cv : RankedCv) :
    (llmAugment env cv).cv_id = cv.cv_id ∧
    (llmAugment env cv).filename = cv.filename ∧
    (llmAugment env cv).initial_vector_score = cv.initial_vector_score ∧
    (llmAugment env cv).llm_ranking_score.isSome = true := by
  unfold llmAugment
  cases env.cvFullText cv.cv_id with
  | none => exact ⟨rfl, rfl, rfl, rfl⟩
  | some s =>
    cases env.llmComparison cv.cv_id with
    | none => exact ⟨rfl, rfl, rfl, rfl⟩
    | some r => exact ⟨rfl, rfl, rfl, rfl⟩

/-- C5: in the LLM scoring stage, candidates whose CV text cannot be
reconstructed, or whose comparator call fails or is unparseable, still
appear in the final ranking with score 0.0 and an error-tagged skills
evaluation, while successful candidates carry the comparator's verdict;
the final list is a permutation of the augmented stage-2 pool (no
candidate silently dropped) sorted descending by `llm_ranking_score`. -/
theorem llm_stage_demotes_never_drops (env : RankEnv) (pool : List RankedCv) (t : String)
    (hjd : env.jdFullText = some t) :
    (stageTwo env pool).Perm (pool.map (llmAugment env)) ∧
    (stageTwo env pool).length = pool.length ∧
    List.Sorted llmDesc (stageTwo env pool) ∧
    (∀ cv ∈ pool, llmAugment env cv ∈ stageTwo env pool ∧
      (llmAugment env cv).cv_id = cv.cv_id) ∧
    (∀ cv ∈ pool, env.cvFullText cv.cv_id = none →
      (llmAugment env cv).llm_ranking_score = some 0 ∧
      (llmAugment env cv).llm_skills_evaluation =
        some ["Error: Could not retrieve full CV text."]) ∧
    (∀ cv ∈ pool, ∀ s, env.cvFullText cv.cv_id = some s →
      env.llmComparison cv.cv_id = none →
      (llmAugment env cv).llm_ranking_score = some 0 ∧
      (llmAugment env cv).llm_skills_evaluation = some ["Error: LLM reasoning failed."]) ∧
    (∀ cv ∈ pool, ∀ s r, env.cvFullText cv.cv_id = some s →
      env.llmComparison cv.cv_id = some r →
      (llmAugment env cv).llm_ranking_score = some (r.llm_ranking_score.getD 0) ∧
      (llmAugment env cv).llm_skills_evaluation = some r.skills_evaluation) := by
  have hstage : stageTwo env pool = List.insertionSort llmDesc (pool.map (llmAugment env)) := by
    unfold stageTwo
    rw [hjd]
  refine ⟨?_, ?_, ?_, ?_, ?_, ?_, ?_⟩
  · rw [hstage]
    exact List.perm_insertionSort llmDesc _
  · rw [hstage, List.length_insertionSort, List.length_map]
  · rw [hstage]
    exact List.sorted_insertionSort llmDesc _
  · intro cv hcv
    refine ⟨?_, (llmAugment_preserves env cv).1⟩
    rw [hstage]
    exact (List.mem_insertionSort llmDesc).mpr (List.mem_map_of_mem (llmAugment env) hcv)
  · intro cv _ hnone
    unfold llmAugment
    rw [hnone]
    exact ⟨rfl, rfl⟩
  · intro cv _ s hs hnone
    unfold llmAugment
    rw [hs, hnone]
    exact ⟨rfl, rfl⟩
  · intro cv _ s r hs hr
    unfold llmAugment
    rw [hs, hr]
    exact ⟨rfl, rfl⟩

/-- Concrete stage-2 environment for the five-candidate scenario: the
comparator returns malformed JSON for cv3 (modelled as `none`) and clean
verdicts for the other four. -/
def envFiveCandidates : RankEnv :=
  { jdChunks := []
    searchHits := fun _ => []
    jdFullText := some "the jd text"
    cvFullText := fun _ => some "a cv text"
    llmComparison := fun id =>
      if id = "cv3" then none
      else some { cv_id := id, skills_evaluation := ["good"], experience_evaluation := []
                  additional_points := [], overall_assessment := some "ok"
                  llm_ranking_score := some (7 / 10) } }

def fiveCandidatePool : List RankedCv :=
  ["cv1", "cv2", "cv3", "cv4", "cv5"].map
    (fun id => { cv_id := id, filename := id, initial_vector_score := 1 / 2 })

/-- C5 witness: on the five-candidate scenario, the demoted candidate cv3
carries score 0 with the error-tagged evaluation while e.g. cv4 carries the
comparator's 0.7 score, and nobody is dropped. -/
theorem llm_stage_demotes_never_drops_witness :
    (stageTwo envFiveCandidates fiveCandidatePool).length = fiveCandidatePool.length ∧
    ((llmAugment envFiveCandidates
        { cv_id := "cv3", filename := "cv3", initial_vector_score := 1 / 2 }).llm_ranking_score =
      some 0 ∧
     (llmAugment envFiveCandidates
        { cv_id := "cv3", filename := "cv3", initial_vector_score := 1 / 2 }).llm_skills_evaluation =
      some ["Error: LLM reasoning failed."]) :=
  ⟨(llm_stage_demotes_never_drops envFiveCandidates fiveCandidatePool "the jd text" rfl).2.1,
   (llm_stage_demotes_never_drops envFiveCandidates fiveCandidatePool "the jd text" rfl).2.2.2.2.2.1
     { cv_id := "cv3", filename := "cv3", initial_vector_score := 1 / 2 }
     (by simp [fiveCandidatePool]) "a cv text" rfl (by simp [envFiveCandidates])⟩

theorem cvMapStep_length_le (acc : List (String × String)) (cv : CvInfo) :
    acc.length ≤ (cvMapStep acc cv).length := by
  unfold cvMapStep
  split <;> simp

theorem foldl_cvMapStep_length (l : List CvInfo) (acc : List (String × String)) :
    acc.length ≤ (l.foldl cvMapStep acc).length := by
  induction l generalizing acc with
  | nil => simp
  | cons cv rest ih =>
    simp only [List.foldl_cons]
    exact le_trans (cvMapStep_length_le acc cv) (ih (cvMapStep acc cv))

/-- A non-empty candidate list always yields a non-empty id dictionary. -/
theorem activeCvIds_ne_nil (cvs : List CvInfo) (h : cvs ≠ []) : activeCvIds cvs ≠ [] := by
  rcases cvs with _ | ⟨cv, rest⟩
  · exact absurd rfl h
  · unfold activeCvIds cvIdToFilename
    simp only [List.foldl_cons]
    intro hmap
    rw [List.map_eq_nil_iff] at hmap
    have h2 := foldl_cvMapStep_length rest (cvMapStep [] cv)
    rw [hmap] at h2
    have h1 : (cvMapStep [] cv).length = 1 := by simp [cvMapStep]
    rw [h1] at h2
    exact absurd h2 (by norm_num)

/-- C3: when `top_n` is unset or at least the pool size, the prefilter path
is never invoked (zero JD-chunk fetches, zero similarity searches) and
every candidate reaches the LLM stage with the neutral 0.5 placeholder
vector score and receives an LLM ranking score. -/
theorem ranking_skips_prefilter (env : RankEnv) (cvs : List CvInfo) (topN : Option Int)
    (t : String) (hcv : cvs ≠ [])
    (hskip : topN = none ∨ ∃ k, topN = some k ∧ ((activeCvIds cvs).length : Int) ≤ k)
    (hjd : env.jdFullText = some t) :
    (calculate_cv_ranking env cvs topN).jdChunkFetches = 0 ∧
    (calculate_cv_ranking env cvs topN).searchCalls = 0 ∧
    ∃ l, (calculate_cv_ranking env cvs topN).result = some l ∧
      l.length = cvs.length ∧
      ∀ cv ∈ cvs, ∃ e ∈ l, e.cv_id = cv.cv_id ∧ e.initial_vector_score = 1 / 2 ∧
        e.llm_ranking_score.isSome = true := by
  have hids := activeCvIds_ne_nil cvs hcv
  have hskipb : rankSkipDecision cvs topN = true := by
    unfold rankSkipDecision
    rcases hskip with h | ⟨k, hk, hle⟩
    · rw [h]
    · rw [hk]
      simpa using hle
  have hresult : calculate_cv_ranking env cvs topN =
      ⟨some (stageTwo env (cvs.map neutralEntry)), 0, 0⟩ := by
    unfold calculate_cv_ranking
    rw [if_neg (by simpa [List.isEmpty_iff] using hcv),
      if_neg (by simpa [List.isEmpty_iff] using hids), if_pos hskipb]
  rw [hresult]
  refine ⟨rfl, rfl, stageTwo env (cvs.map neutralEntry), rfl, ?_, ?_⟩
  · have h := llm_stage_demotes_never_drops env (cvs.map neutralEntry) t hjd
    rw [h.2.1, List.length_map]
  · intro cv hcv'
    have h := llm_stage_demotes_never_drops env (cvs.map neutralEntry) t hjd
    have hmem := (h.2.2.2.1 (neutralEntry cv) (List.mem_map_of_mem neutralEntry hcv')).1
    refine ⟨llmAugment env (neutralEntry cv), hmem, ?_, ?_, ?_⟩
    · rw [(llmAugment_preserves env (neutralEntry cv)).1]
      rfl
    · rw [(llmAugment_preserves env (neutralEntry cv)).2.2.1]
      rfl
    · exact (llmAugment_preserves env (neutralEntry cv)).2.2.2

def fiveCandidateInfos : List CvInfo :=
  ["cv1", "cv2", "cv3", "cv4", "cv5"].map (fun id => { cv_id := id })

/-- C3 witness: ranking all five candidates with `top_n` unset fires no
prefilter call and scores every candidate. -/
theorem ranking_skips_prefilter_witness :
    (calculate_cv_ranking envFiveCandidates fiveCandidateInfos none).jdChunkFetches = 0 ∧
    (calculate_cv_ranking envFiveCandidates fiveCandidateInfos none).searchCalls = 0 ∧
    ∃ l, (calculate_cv_ranking envFiveCandidates fiveCandidateInfos none).result = some l ∧
      l.length = fiveCandidateInfos.length ∧
      ∀ cv ∈ fiveCandidateInfos, ∃ e ∈ l, e.cv_id = cv.cv_id ∧
        e.initial_vector_score = 1 / 2 ∧ e.llm_ranking_score.isSome = true :=
  ranking_skips_prefilter envFiveCandidates fiveCandidateInfos none "the jd text"
    (by decide) (Or.inl rfl) rfl

theorem find?_update_self (agg : List (String × AggEntry)) (id : String)
    (f : AggEntry → AggEntry) :
    (agg.map (fun p => if p.1 == id then (p.1, f p.2) else p)).find? (fun p => p.1 == id) =
      (agg.find? (fun p => p.1 == id)).map (fun p => (p.1, f p.2)) := by
  induction agg with
  | nil => rfl
  | cons p rest ih =>
    rw [List.map_cons]
    by_cases h : (p.1 == id) = true
    · rw [if_pos h,
        List.find?_cons_of_pos (p := fun q : String × AggEntry => q.1 == id)
          (a := (p.1, f p.2)) _ h,
        List.find?_cons_of_pos (p := fun q : String × AggEntry => q.1 == id) (a := p) _ h]
      rfl
    · rw [if_neg h,
        List.find?_cons_of_neg (p := fun q : String × AggEntry => q.1 == id) (a := p) _ h,
        List.find?_cons_of_neg (p := fun q : String × AggEntry => q.1 == id) (a := p) _ h, ih]

theorem find?_update_other (agg : List (String × AggEntry)) (id id' : String)
    (hne : id ≠ id') (f : AggEntry → AggEntry) :
    (agg.map (fun p => if p.1 == id' then (p.1, f p.2) else p)).find? (fun p => p.1 == id) =
      agg.find? (fun p => p.1 == id) := by
  induction agg with
  | nil => rfl
  | cons p rest ih =>
    rw [List.map_cons]
    by_cases h1 : (p.1 == id') = true
    · have h2 : ¬(p.1 == id) = true := by
        rw [Bool.not_eq_true, beq_eq_false_iff_ne, eq_of_beq h1]
        exact fun he => hne he.symm
      rw [if_pos h1,
        List.find?_cons_of_neg (p := fun q : String × AggEntry => q.1 == id)
          (a := (p.1, f p.2)) _ h2,
        List.find?_cons_of_neg (p := fun q : String × AggEntry => q.1 == id) (a := p) _ h2, ih]
    · by_cases h2 : (p.1 == id) = true
      · rw [if_neg h1,
          List.find?_cons_of_pos (p := fun q : String × AggEntry => q.1 == id) (a := p) _ h2,
          List.find?_cons_of_pos (p := fun q : String × AggEntry => q.1 == id) (a := p) _ h2]
      · rw [if_neg h1,
          List.find?_cons_of_neg (p := fun q : String × AggEntry => q.1 == id) (a := p) _ h2,
          List.find?_cons_of_neg (p := fun q : String × AggEntry => q.1 == id) (a := p) _ h2, ih]

theorem keys_applyHit (w : Int) (agg : List (String × AggEntry)) (hit : SearchHit) :
    (applyHit w agg hit).map Prod.fst = agg.map Prod.fst := by
  unfold applyHit
  cases hit.original_doc_id with
  | none => rfl
  | some id' =>
    dsimp only
    by_cases h : (id' == "") = true
    · rw [if_pos h]
    · rw [if_neg h, List.map_map]
      apply List.map_congr_left
      intro p _
      by_cases hp : p.1 = id' <;> simp [hp]

theorem find?_isSome_of_keys (agg agg' : List (String × AggEntry)) (id : String)
    (hkeys : agg'.map Prod.fst = agg.map Prod.fst)
    (hk : (agg.find? (fun p => p.1 == id)).isSome = true) :
    (agg'.find? (fun p => p.1 == id)).isSome = true := by
  rw [List.find?_isSome] at hk ⊢
  rcases hk with ⟨x, hx, hpx⟩
  have hx' : x.1 ∈ agg'.map Prod.fst := by
    rw [hkeys]
    exact List.mem_map_of_mem Prod.fst hx
  rcases List.mem_map.mp hx' with ⟨y, hy, hyx⟩
  exact ⟨y, hy, by rw [show y.1 = x.1 from hyx]; exact hpx⟩

theorem aggMax_applyHit (w : Int) (agg : List (String × AggEntry)) (hit : SearchHit)
    (id : String) (hid : id ≠ "")
    (hk : (agg.find? (fun p => p.1 == id)).isSome = true) :
    aggMax (applyHit w agg hit) id =
      if hit.original_doc_id == some id then max (aggMax agg id) (hit.score ^ 2 * (w : ℚ))
      else aggMax agg id := by
  rcases Option.isSome_iff_exists.mp hk with ⟨q, hq⟩
  unfold applyHit
  cases hh : hit.original_doc_id with
  | none => rw [if_neg (by simp)]
  | some id' =>
    dsimp only
    by_cases h1 : id' = id
    · obtain rfl := h1
      have h0f : (id' == "") = false := by
        rw [beq_eq_false_iff_ne]
        exact hid
      unfold aggMax
      simp only [h0f, Bool.false_eq_true, if_false, beq_self_eq_true, if_true,
        find?_update_self, hq]
      rfl
    · have hko : (some id' == some id) = false := by
        rw [beq_eq_false_iff_ne]
        intro he
        exact h1 (by injection he)
      by_cases h0 : (id' == "") = true
      · simp only [h0, if_true, hko, Bool.false_eq_true, if_false]
      · have h0f : (id' == "") = false := by rwa [Bool.not_eq_true] at h0
        simp only [h0f, Bool.false_eq_true, if_false, hko]
        unfold aggMax
        rw [find?_update_other agg id id' (fun he => h1 he.symm) (hitUpdate w hit)]

theorem keys_foldl_applyHit (w : Int) (hits : List SearchHit) (agg : List (String × AggEntry)) :
    ((hits.foldl (applyHit w) agg).map Prod.fst) = agg.map Prod.fst := by
  induction hits generalizing agg with
  | nil => rfl
  | cons h t ih => rw [List.foldl_cons, ih, keys_applyHit]

theorem aggMax_foldl_hits (w : Int) (hits : List SearchHit) (agg : List (String × AggEntry))
    (id : String) (hid : id ≠ "")
    (hk : (agg.find? (fun p => p.1 == id)).isSome = true) :
    aggMax (hits.foldl (applyHit w) agg) id =
      (hits.filterMap (fun h => if h.original_doc_id == some id then
        some (h.score ^ 2 * (w : ℚ)) else none)).foldl max (aggMax agg id) := by
  induction hits generalizing agg with
  | nil => rfl
  | cons h t ih =>
    rw [List.foldl_cons]
    have hk' : ((applyHit w agg h).find? (fun p => p.1 == id)).isSome = true :=
      find?_isSome_of_keys _ _ id (keys_applyHit w agg h) hk
    rw [ih _ hk', aggMax_applyHit w agg h id hid hk]
    by_cases hm : (h.original_doc_id == some id) = true
    · simp only [List.filterMap_cons, hm, if_true, List.foldl_cons]
    · simp only [List.filterMap_cons, hm, if_false, Bool.false_eq_true]

theorem keys_applyJdChunk (env : RankEnv) (agg : List (String × AggEntry))
    (ic : Nat × ChunkPayload) :
    (applyJdChunk env agg ic).map Prod.fst = agg.map Prod.fst := by
  unfold applyJdChunk
  by_cases h : (pyStrip ic.2.enriched_text == "") = true
  · rw [if_pos h]
  · rw [if_neg h, keys_foldl_applyHit]

theorem aggMax_applyJdChunk (env : RankEnv) (agg : List (String × AggEntry))
    (ic : Nat × ChunkPayload) (id : String) (hid : id ≠ "")
    (hk : (agg.find? (fun p => p.1 == id)).isSome = true) :
    aggMax (applyJdChunk env agg ic) id =
      (chunkContribs env ic id).foldl max (aggMax agg id) := by
  unfold applyJdChunk chunkContribs
  by_cases h : (pyStrip ic.2.enriched_text == "") = true
  · rw [if_pos h, if_pos h]
    rfl
  · rw [if_neg h, if_neg h, aggMax_foldl_hits _ _ _ _ hid hk]

theorem keys_foldl_chunks (env : RankEnv) (ics : List (Nat × ChunkPayload))
    (agg : List (String × AggEntry)) :
    ((ics.foldl (applyJdChunk env) agg).map Prod.fst) = agg.map Prod.fst := by
  induction ics generalizing agg with
  | nil => rfl
  | cons ic t ih => rw [List.foldl_cons, ih, keys_applyJdChunk]

theorem aggMax_foldl_chunks (env : RankEnv) (ics : List (Nat × ChunkPayload))
    (agg : List (String × AggEntry)) (id : String) (hid : id ≠ "")
    (hk : (agg.find? (fun p => p.1 == id)).isSome = true) :
    aggMax (ics.foldl (applyJdChunk env) agg) id =
      ((ics.map (fun ic => chunkContribs env ic id)).flatten).foldl max (aggMax agg id) := by
  induction ics generalizing agg with
  | nil => rfl
  | cons ic t ih =>
    rw [List.foldl_cons, List.map_cons, List.flatten_cons, List.foldl_append]
    have hk' := find?_isSome_of_keys _ _ id (keys_applyJdChunk env agg ic) hk
    rw [ih _ hk', aggMax_applyJdChunk env agg ic id hid hk]

theorem initialAgg_find (cvs : List CvInfo) (id : String) (hmem : id ∈ activeCvIds cvs) :
    ((initialAgg cvs).find? (fun p => p.1 == id)).isSome = true ∧
    aggMax (initialAgg cvs) id = 0 := by
  have hsome : ((cvIdToFilename cvs).find? (fun p => p.1 == id)).isSome = true := by
    rw [List.find?_isSome]
    rcases List.mem_map.mp hmem with ⟨p, hp, hpe⟩
    exact ⟨p, hp, by rw [show p.1 = id from hpe]; exact beq_self_eq_true id⟩
  rcases Option.isSome_iff_exists.mp hsome with ⟨q, hq⟩
  have hfind : (initialAgg cvs).find? (fun p => p.1 == id) =
      some (q.1, ({ filename := q.2 } : AggEntry)) := by
    unfold initialAgg
    rw [List.find?_map]
    rw [show ((fun p : String × AggEntry => p.1 == id) ∘
        (fun p : String × String => (p.1, ({ filename := p.2 } : AggEntry)))) =
        (fun p : String × String => p.1 == id) from rfl, hq]
    rfl
  exact ⟨by rw [hfind]; rfl, by unfold aggMax; rw [hfind]; rfl⟩

theorem keys_runStageOne (env : RankEnv) (cvs : List CvInfo) :
    (runStageOne env cvs).map Prod.fst = activeCvIds cvs := by
  unfold runStageOne
  rw [keys_foldl_chunks]
  unfold initialAgg activeCvIds
  rw [List.map_map]
  rfl

/-- The loop-and-aggregator implementation computes, per CV id, exactly the
spec's maximum weighted contribution (max over the flat contribution list,
starting from the 0 the slot is initialized with). -/
theorem stageOne_max_eq (env : RankEnv) (cvs : List CvInfo) (id : String)
    (hmem : id ∈ activeCvIds cvs) (hid : id ≠ "") :
    aggMax (runStageOne env cvs) id = (cvContributions env id).foldl max 0 := by
  have h0 := initialAgg_find cvs id hmem
  unfold runStageOne
  rw [aggMax_foldl_chunks env _ _ id hid h0.1, h0.2]
  rfl

theorem keys_cvMapStep (acc : List (String × String)) (cv : CvInfo) :
    (cvMapStep acc cv).map Prod.fst =
      if acc.any (fun p => p.1 == cv.cv_id) then acc.map Prod.fst
      else acc.map Prod.fst ++ [cv.cv_id] := by
  unfold cvMapStep
  by_cases h : (acc.any (fun p => p.1 == cv.cv_id)) = true
  · rw [if_pos h, if_pos h, List.map_map]
    apply List.map_congr_left
    intro p _
    by_cases hp : p.1 = cv.cv_id <;> simp [hp]
  · rw [if_neg h, if_neg h, List.map_append]
    rfl

theorem nodup_activeCvIds (cvs : List CvInfo) : (activeCvIds cvs).Nodup := by
  suffices h : ∀ (l : List CvInfo) (acc : List (String × String)),
      (acc.map Prod.fst).Nodup → ((l.foldl cvMapStep acc).map Prod.fst).Nodup by
    exact h cvs [] (by simp)
  intro l
  induction l with
  | nil => exact fun acc h => h
  | cons cv rest ih =>
    intro acc h
    rw [List.foldl_cons]
    apply ih
    rw [keys_cvMapStep]
    by_cases hany : (acc.any (fun p => p.1 == cv.cv_id)) = true
    · rw [if_pos hany]
      exact h
    · rw [if_neg hany]
      have hnotin : cv.cv_id ∉ acc.map Prod.fst := by
        intro hin
        rcases List.mem_map.mp hin with ⟨p, hp, hpe⟩
        apply hany
        rw [List.any_eq_true]
        exact ⟨p, hp, by rw [show p.1 = cv.cv_id from hpe]; exact beq_self_eq_true _⟩
      exact List.Nodup.append h (List.nodup_singleton _)
        (by rwa [List.disjoint_singleton])

theorem find?_of_mem_nodup (l : List (String × AggEntry)) (id : String) (e : AggEntry)
    (hmem : (id, e) ∈ l) (hnd : (l.map Prod.fst).Nodup) :
    l.find? (fun p => p.1 == id) = some (id, e) := by
  induction l with
  | nil => exact absurd hmem (List.not_mem_nil _)
  | cons p rest ih =>
    rw [List.map_cons, List.nodup_cons] at hnd
    rcases List.mem_cons.mp hmem with h | h
    · rw [← h]
      exact List.find?_cons_of_pos _ (beq_self_eq_true id)
    · have hp1 : ¬(p.1 == id) = true := by
        rw [Bool.not_eq_true, beq_eq_false_iff_ne]
        intro he
        exact hnd.1 (he.symm ▸ List.mem_map_of_mem Prod.fst h)
      rw [List.find?_cons_of_neg (p := fun q : String × AggEntry => q.1 == id) (a := p) _ hp1]
      exact ih h hnd.2

/-- Every entry reaching the stage-1 candidate list carries, as its
stage-1 score, the spec's max weighted contribution for its CV id. -/
theorem stageOne_entry_score (env : RankEnv) (cvs : List CvInfo) (e : RankedCv)
    (he : e ∈ (runStageOne env cvs).map aggToRanked) (hid : e.cv_id ≠ "") :
    e.initial_vector_score = (cvContributions env e.cv_id).foldl max 0 := by
  rcases List.mem_map.mp he with ⟨⟨id, data⟩, hmem, rfl⟩
  have hkeys : ((runStageOne env cvs).map Prod.fst).Nodup := by
    rw [keys_runStageOne]
    exact nodup_activeCvIds cvs
  have hfind := find?_of_mem_nodup _ id data hmem hkeys
  have hmemid : id ∈ activeCvIds cvs := by
    rw [← keys_runStageOne env cvs]
    exact List.mem_map_of_mem Prod.fst hmem
  have hmax := stageOne_max_eq env cvs id hmemid hid
  rw [show (aggToRanked (id, data)).initial_vector_score = data.max_weighted_contribution
    from rfl]
  rw [show (aggToRanked (id, data)).cv_id = id from rfl] at hid ⊢
  rw [← hmax]
  unfold aggMax
  rw [hfind]
  rfl

/-- The spec's concrete prefilter scenario: a JD with three chunks of
weights 3, 1, 2; CV-A's best hit is raw similarity 0.9 against the
weight-3 chunk, CV-B's best hit is raw similarity 0.99 against the
weight-1 chunk. -/
def jdChunkW (w : Int) (txt : String) : ChunkPayload :=
  { original_doc_id := "jd1", chunk_index := some 0, enriched_text := txt,
    og_text := some txt, total_chunks_for_doc := 3, weight := some w }

def envScenario : RankEnv :=
  { jdChunks := [jdChunkW 3 "critical requirement", jdChunkW 1 "nice to have",
      jdChunkW 2 "important requirement"]
    searchHits := fun i =>
      if i = 0 then [{ original_doc_id := some "cvA", score := 9 / 10 }]
      else if i = 1 then [{ original_doc_id := some "cvB", score := 99 / 100 }]
      else []
    jdFullText := some "jd"
    cvFullText := fun _ => some "cv"
    llmComparison := fun _ => none }

def cvsScenario : List CvInfo := [{ cv_id := "cvA" }, { cv_id := "cvB" }]

/-- C4: the vector-prefilter stage.
(1) The aggregator's stage-1 score for each candidate equals the maximum —
folded from 0 — of `rawSimilarity² × jdChunkWeight` over all hits of all
JD-chunk queries naming that candidate.
(2) The stage-1 pool is sorted descending by that score, and
(3) has exactly `min num_llm_candidates pool_size` entries, where
`num_llm_candidates` is `top_n`, or 5 when `top_n` is non-positive.
(4) Every pool entry carries the max-contribution score as its
`initial_vector_score`.
(5) The prefilter branch of `calculate_cv_ranking` hands exactly this pool
to the LLM stage.
(6) In the spec's concrete scenario, CV-A (contribution 0.9²×3 = 2.43)
ranks above CV-B (contribution 0.99²×1 = 0.9801) after the prefilter. -/
theorem prefilter_max_contribution :
    (∀ (env : RankEnv) (cvs : List CvInfo) (id : String), id ∈ activeCvIds cvs → id ≠ "" →
      aggMax (runStageOne env cvs) id = (cvContributions env id).foldl max 0) ∧
    (∀ (env : RankEnv) (cvs : List CvInfo) (topN : Option Int),
      List.Sorted vecDesc (stageOnePool env cvs topN)) ∧
    (∀ (env : RankEnv) (cvs : List CvInfo) (topN : Option Int),
      (stageOnePool env cvs topN).length =
        min (numLlmCandidates topN) (activeCvIds cvs).length) ∧
    (∀ (env : RankEnv) (cvs : List CvInfo) (topN : Option Int) (e : RankedCv),
      e ∈ stageOnePool env cvs topN → e.cv_id ≠ "" →
      e.initial_vector_score = (cvContributions env e.cv_id).foldl max 0) ∧
    (∀ (env : RankEnv) (cvs : List CvInfo) (topN : Option Int),
      cvs ≠ [] → rankSkipDecision cvs topN = false → env.jdChunks ≠ [] →
      stageOnePool env cvs topN ≠ [] →
      calculate_cv_ranking env cvs topN =
        ⟨some (stageTwo env (stageOnePool env cvs topN)), 1, stageOneSearchCalls env⟩) ∧
    (numLlmCandidates (some 0) = 5 ∧ rankSkipDecision cvsScenario (some 0) = false ∧
      (stageOnePool envScenario cvsScenario (some 0)).map
        (fun e => (e.cv_id, e.initial_vector_score)) =
        [("cvA", 243 / 100), ("cvB", 9801 / 10000)]) := by
  refine ⟨stageOne_max_eq, ?_, ?_, ?_, ?_, by decide, by decide, ?_⟩
  · intro env cvs topN
    exact List.Pairwise.sublist (List.take_sublist _ _)
      (List.sorted_insertionSort vecDesc _)
  · intro env cvs topN
    have hlen : (runStageOne env cvs).length = (activeCvIds cvs).length := by
      rw [← keys_runStageOne env cvs, List.length_map]
    rw [stageOnePool, List.length_take, List.length_insertionSort, List.length_map, hlen]
  · intro env cvs topN e he hid
    apply stageOne_entry_score env cvs e ?_ hid
    exact (List.mem_insertionSort vecDesc).mp ((List.take_sublist _ _).subset he)
  · intro env cvs topN hcv hskip hjd hpool
    unfold calculate_cv_ranking
    rw [if_neg (by simpa [List.isEmpty_iff] using hcv),
      if_neg (by simpa [List.isEmpty_iff] using activeCvIds_ne_nil cvs hcv),
      if_neg (by simp [hskip]),
      if_neg (by simpa [List.isEmpty_iff] using hjd),
      if_neg (by simpa [List.isEmpty_iff] using hpool)]
  · norm_num [stageOnePool, runStageOne, initialAgg, cvIdToFilename, cvMapStep, activeCvIds,
      filenameOf, applyJdChunk, applyHit, hitUpdate, normWeight, aggToRanked,
      numLlmCandidates, vecDesc, List.insertionSort, List.orderedInsert, envScenario,
      cvsScenario, jdChunkW, pyStrip, chunkContribs, List.enum, List.enumFrom, aggMax,
      show "cvB" ≠ "cvA" by decide, show "cvA" ≠ "cvB" by decide]

/-- C4 witness: the max-contribution characterization instantiated on the
concrete scenario for CV-A. -/
theorem prefilter_max_contribution_witness :
    aggMax (runStageOne envScenario cvsScenario) "cvA" =
      (cvContributions envScenario "cvA").foldl max 0 :=
  prefilter_max_contribution.1 envScenario cvsScenario "cvA" (by decide) (by decide)

/-- The payloads a persist call stores, independent of the id counter. -/
def persistedPayloads (docId : String) (isJd : Bool) (chunks : List LLMChunk) :
    List ChunkPayload :=
  (keptIndexed chunks).map (fun ic => chunkPayloadAt docId isJd chunks.length ic.1 ic.2)

theorem processChunksPoints_payloads (docId : String) (isJd : Bool) (embed : String → List ℚ)
    (firstId : Nat) (chunks : List LLMChunk) :
    (processChunksPoints docId isJd embed firstId chunks).map (·.payload) =
      persistedPayloads docId isJd chunks := by
  simp only [processChunksPoints, persistedPayloads, List.map_map]
  conv_rhs => rw [← List.enum_map_snd (keptIndexed chunks), List.map_map]
  rfl

theorem processChunksPoints_length (docId : String) (isJd : Bool) (embed : String → List ℚ)
    (firstId : Nat) (chunks : List LLMChunk) :
    (processChunksPoints docId isJd embed firstId chunks).length =
      (keptIndexed chunks).length := by
  simp [processChunksPoints]

theorem processChunksPoints_pids (docId : String) (isJd : Bool) (embed : String → List ℚ)
    (firstId : Nat) (chunks : List LLMChunk) :
    (∀ p ∈ processChunksPoints docId isJd embed firstId chunks,
      firstId ≤ p.pid ∧ p.pid < firstId + (keptIndexed chunks).length) ∧
    List.Pairwise (fun a b : Point => a.pid ≠ b.pid)
      (processChunksPoints docId isJd embed firstId chunks) := by
  constructor
  · intro p hp
    simp only [processChunksPoints, List.mem_map] at hp
    rcases hp with ⟨jic, hjic, rfl⟩
    refine ⟨Nat.le_add_right _ _, ?_⟩
    have hmem : jic.1 ∈ List.range (keptIndexed chunks).length := by
      rw [← List.enum_map_fst (keptIndexed chunks)]
      exact List.mem_map_of_mem Prod.fst hjic
    exact Nat.add_lt_add_left (List.mem_range.mp hmem) firstId
  · rw [processChunksPoints, List.pairwise_map]
    have h1 : List.Pairwise (fun a b : Nat × (Nat × LLMChunk) => a.1 < b.1)
        (keptIndexed chunks).enum := by
      have h0 := List.pairwise_lt_range (keptIndexed chunks).length
      rw [← List.enum_map_fst (keptIndexed chunks)] at h0
      exact List.pairwise_map.mp h0
    refine h1.imp ?_
    intro a b h
    exact Nat.ne_of_lt (Nat.add_lt_add_left h firstId)

theorem upsertPoint_append (ps : List Point) (p : Point)
    (h : ∀ q ∈ ps, q.pid ≠ p.pid) : upsertPoint ps p = ps ++ [p] := by
  unfold upsertPoint
  rw [if_neg ?_]
  intro hany
  rw [List.any_eq_true] at hany
  rcases hany with ⟨q, hq, hqp⟩
  exact h q hq (eq_of_beq hqp)

theorem upsertPoints_append (newPts : List Point) (ps : List Point)
    (hfresh : ∀ p ∈ newPts, ∀ q ∈ ps, q.pid ≠ p.pid)
    (hnd : List.Pairwise (fun a b : Point => a.pid ≠ b.pid) newPts) :
    upsertPoints ps newPts = ps ++ newPts := by
  induction newPts generalizing ps with
  | nil => simp [upsertPoints]
  | cons p rest ih =>
    rcases List.pairwise_cons.mp hnd with ⟨hp, hnd'⟩
    have h1 : upsertPoint ps p = ps ++ [p] :=
      upsertPoint_append ps p (fun q hq => hfresh p (List.mem_cons_self p rest) q hq)
    have h2 : upsertPoints (ps ++ [p]) rest = (ps ++ [p]) ++ rest := by
      refine ih (ps ++ [p]) ?_ hnd'
      intro r hr q hq
      rcases List.mem_append.mp hq with h | h
      · exact hfresh r (List.mem_cons_of_mem p hr) q h
      · rw [List.mem_singleton.mp h]
        exact hp r hr
    show upsertPoints (upsertPoint ps p) rest = ps ++ p :: rest
    rw [h1, h2, List.append_assoc]
    rfl

theorem fetch_append (ps qs : List Point) (n : Nat) (docId : String) :
    get_qdrantchunk_content ⟨ps ++ qs, n⟩ docId =
      get_qdrantchunk_content ⟨ps, n⟩ docId ++ get_qdrantchunk_content ⟨qs, n⟩ docId := by
  unfold get_qdrantchunk_content
  rw [List.filter_append, List.map_append]

theorem fetch_processed (docId : String) (isJd : Bool) (embed : String → List ℚ)
    (firstId n : Nat) (chunks : List LLMChunk) :
    get_qdrantchunk_content ⟨processChunksPoints docId isJd embed firstId chunks, n⟩ docId =
      persistedPayloads docId isJd chunks := by
  unfold get_qdrantchunk_content
  rw [List.filter_eq_self.mpr, processChunksPoints_payloads]
  intro p hp
  simp only [processChunksPoints, List.mem_map] at hp
  rcases hp with ⟨jic, _, rfl⟩
  exact beq_self_eq_true docId

theorem append_self_perm_flatMap (P : List ChunkPayload) :
    (P ++ P).Perm (P.flatMap (fun c => [c, c])) := by
  induction P with
  | nil => simp
  | cons c t ih =>
    simp only [List.cons_append, List.flatMap_cons]
    exact List.Perm.cons c (List.perm_middle.trans (List.Perm.cons c ih))

theorem pairwise_flatMap_dup (P : List ChunkPayload)
    (h : List.Pairwise (fun a b => indexKey a < indexKey b) P) :
    List.Pairwise chunkIdxLtEq (P.flatMap (fun c => [c, c])) := by
  induction P with
  | nil => simp
  | cons c t ih =>
    rw [List.flatMap_cons]
    rcases List.pairwise_cons.mp h with ⟨hc, ht⟩
    refine List.pairwise_append.mpr ⟨?_, ih ht, ?_⟩
    · refine List.pairwise_cons.mpr ⟨?_, List.pairwise_singleton _ _⟩
      intro b hb
      rw [List.mem_singleton.mp hb]
      exact Or.inr rfl
    · intro a ha b hb
      have ha' : a = c := by
        rcases List.mem_cons.mp ha with h' | h'
        · exact h'
        · exact List.mem_singleton.mp h'
      rcases List.mem_flatMap.mp hb with ⟨x, hx, hbx⟩
      have hb' : b = x := by
        rcases List.mem_cons.mp hbx with h' | h'
        · exact h'
        · exact List.mem_singleton.mp h'
      exact Or.inl (ha' ▸ hb' ▸ hc x hx)

/-- Stable-sorting two interleaved copies of a strictly index-increasing
chunk list yields each chunk duplicated in place. -/
theorem sortChunks_double (P : List ChunkPayload)
    (hstrict : List.Pairwise (fun a b => indexKey a < indexKey b) P) :
    sortChunksByIndex (P ++ P) = P.flatMap (fun c => [c, c]) := by
  apply sortChunksByIndex_eq_of_perm _ _ (append_self_perm_flatMap P)
    (pairwise_flatMap_dup P hstrict)
  intro a ha b hb he
  have ha' : a ∈ P := by
    rcases List.mem_append.mp ha with h' | h' <;> exact h'
  have hb' : b ∈ P := by
    rcases List.mem_append.mp hb with h' | h' <;> exact h'
  exact strict_pairwise_idx_unique P hstrict a ha' b hb' he

theorem map_dup_flatMap {α β : Type} (f : α → β) (l : List α) :
    (l.flatMap (fun c => [c, c])).map f = (l.map f).flatMap (fun s => [s, s]) := by
  induction l with
  | nil => rfl
  | cons c t ih => simp [ih]

theorem processChunks_success (docId : String) (isJd : Bool) (embed : String → List ℚ)
    (firstId : Nat) (chunks : List LLMChunk)
    (hguard : chunksGuardOk chunks = true) (hkept : keptIndexed chunks ≠ []) :
    processChunksForVectorDb docId isJd embed firstId true chunks =
      (true, processChunksPoints docId isJd embed firstId chunks) := by
  have hne : ¬((processChunksPoints docId isJd embed firstId chunks).isEmpty = true) := by
    rw [List.isEmpty_iff]
    intro he
    apply hkept
    have hl := processChunksPoints_length docId isJd embed firstId chunks
    rw [he] at hl
    exact List.length_eq_zero.mp hl.symm
  unfold processChunksForVectorDb
  rw [if_neg (by simp [hguard]), if_neg hne]

theorem persistToStore_eq (st : Store) (docId : String) (isJd : Bool)
    (embed : String → List ℚ) (chunks : List LLMChunk)
    (hguard : chunksGuardOk chunks = true) (hkept : keptIndexed chunks ≠ []) :
    persistToStore st docId isJd embed chunks =
      (true, ⟨upsertPoints st.points (processChunksPoints docId isJd embed st.nextId chunks),
        st.nextId + (processChunksPoints docId isJd embed st.nextId chunks).length⟩) := by
  unfold persistToStore
  rw [processChunks_success docId isJd embed st.nextId chunks hguard hkept]
  rfl

/-- C10: every persist call assigns fresh point ids, so persisting the same
document twice (e.g. the ingestion retry re-running the DB write) *adds*
a second copy of every chunk instead of replacing the first: both persist
calls succeed, the chunk fetch returns both copies of every payload, the
store grows by twice the chunk count, and full-text reconstruction
concatenates the duplicated text (each og_text appearing twice, in index
order). -/
theorem duplicate_persist_duplicates (st : Store) (docId : String) (isJd : Bool)
    (embed : String → List ℚ) (chunks : List LLMChunk)
    (hfresh : ∀ p ∈ st.points, p.pid < st.nextId)
    (hclean : get_qdrantchunk_content st docId = [])
    (hguard : chunksGuardOk chunks = true)
    (hkept : keptIndexed chunks ≠ [])
    (hog : ∀ ic ∈ keptIndexed chunks, pyStrip (ogTextOf ic.2) ≠ "") :
    (persistToStore st docId isJd embed chunks).1 = true ∧
    (persistToStore (persistToStore st docId isJd embed chunks).2 docId isJd
      embed chunks).1 = true ∧
    get_qdrantchunk_content
        (persistToStore (persistToStore st docId isJd embed chunks).2 docId isJd
          embed chunks).2 docId =
      persistedPayloads docId isJd chunks ++ persistedPayloads docId isJd chunks ∧
    (persistToStore (persistToStore st docId isJd embed chunks).2 docId isJd
      embed chunks).2.points.length =
      st.points.length + 2 * (keptIndexed chunks).length ∧
    get_full_document_text_from_db
        (get_qdrantchunk_content
          (persistToStore (persistToStore st docId isJd embed chunks).2 docId isJd
            embed chunks).2 docId) =
      some (pyJoin "\n\n"
        (((keptIndexed chunks).map (fun ic => ogTextOf ic.2)).flatMap (fun s => [s, s]))) := by
  have h1 := persistToStore_eq st docId isJd embed chunks hguard hkept
  have hpids1 := processChunksPoints_pids docId isJd embed st.nextId chunks
  have hlen1 := processChunksPoints_length docId isJd embed st.nextId chunks
  have hup1 : upsertPoints st.points (processChunksPoints docId isJd embed st.nextId chunks) =
      st.points ++ processChunksPoints docId isJd embed st.nextId chunks :=
    upsertPoints_append _ st.points
      (fun p hp q hq => Nat.ne_of_lt (lt_of_lt_of_le (hfresh q hq) (hpids1.1 p hp).1))
      hpids1.2
  have hst1 : (persistToStore st docId isJd embed chunks).2 =
      ⟨st.points ++ processChunksPoints docId isJd embed st.nextId chunks,
        st.nextId + (processChunksPoints docId isJd embed st.nextId chunks).length⟩ := by
    rw [h1, hup1]
  have h2 := persistToStore_eq (persistToStore st docId isJd embed chunks).2
    docId isJd embed chunks hguard hkept
  rw [hst1] at h2
  set n1 := st.nextId + (processChunksPoints docId isJd embed st.nextId chunks).length with hn1
  have hpids2 := processChunksPoints_pids docId isJd embed n1 chunks
  have hup2 : upsertPoints
      (st.points ++ processChunksPoints docId isJd embed st.nextId chunks)
      (processChunksPoints docId isJd embed n1 chunks) =
      (st.points ++ processChunksPoints docId isJd embed st.nextId chunks) ++
        processChunksPoints docId isJd embed n1 chunks := by
    apply upsertPoints_append _ _ ?_ hpids2.2
    intro p hp q hq
    apply Nat.ne_of_lt
    apply lt_of_lt_of_le ?_ (hpids2.1 p hp).1
    rcases List.mem_append.mp hq with h' | h'
    · exact lt_of_lt_of_le (hfresh q h') (Nat.le_add_right _ _)
    · rw [hn1, hlen1]
      exact (hpids1.1 q h').2
  have hst2 : (persistToStore (persistToStore st docId isJd embed chunks).2 docId isJd
      embed chunks).2 =
      ⟨(st.points ++ processChunksPoints docId isJd embed st.nextId chunks) ++
        processChunksPoints docId isJd embed n1 chunks,
        n1 + (processChunksPoints docId isJd embed n1 chunks).length⟩ := by
    rw [hst1, h2, hup2]
  have hfetch0 : get_qdrantchunk_content
      ⟨st.points, n1 + (processChunksPoints docId isJd embed n1 chunks).length⟩ docId = [] :=
    hclean
  have hfetch : get_qdrantchunk_content
      (persistToStore (persistToStore st docId isJd embed chunks).2 docId isJd
        embed chunks).2 docId =
      persistedPayloads docId isJd chunks ++ persistedPayloads docId isJd chunks := by
    rw [hst2, fetch_append, fetch_append, hfetch0, fetch_processed, fetch_processed,
      List.nil_append]
  have hstrictP : List.Pairwise (fun a b => indexKey a < indexKey b)
      (persistedPayloads docId isJd chunks) := by
    rw [← processChunksPoints_payloads docId isJd embed 0 chunks]
    exact persisted_payloads_strict docId isJd embed 0 chunks
  have hvalidP : ∀ c ∈ persistedPayloads docId isJd chunks, hasValidIndex c = true := by
    rw [← processChunksPoints_payloads docId isJd embed 0 chunks]
    exact persisted_payloads_valid docId isJd embed 0 chunks
  have husable : ∀ c ∈ persistedPayloads docId isJd chunks, usableOgText c = true := by
    intro c hc
    rcases List.mem_map.mp hc with ⟨ic, hic, rfl⟩
    simp only [chunkPayloadAt, usableOgText]
    rw [bne_iff_ne]
    exact hog ic hic
  have hPne : persistedPayloads docId isJd chunks ≠ [] := by
    intro he
    exact hkept (List.map_eq_nil_iff.mp he)
  have hogmap : (persistedPayloads docId isJd chunks).map ogTextPart =
      (keptIndexed chunks).map (fun ic => ogTextOf ic.2) := by
    unfold persistedPayloads
    rw [List.map_map]
    rfl
  have hrec : get_full_document_text_from_db
      (persistedPayloads docId isJd chunks ++ persistedPayloads docId isJd chunks) =
      some (pyJoin "\n\n"
        (((keptIndexed chunks).map (fun ic => ogTextOf ic.2)).flatMap (fun s => [s, s]))) := by
    have hparts : fullTextParts
        (persistedPayloads docId isJd chunks ++ persistedPayloads docId isJd chunks) =
        ((keptIndexed chunks).map (fun ic => ogTextOf ic.2)).flatMap (fun s => [s, s]) := by
      have hfilter1 : (persistedPayloads docId isJd chunks ++
          persistedPayloads docId isJd chunks).filter hasValidIndex =
          persistedPayloads docId isJd chunks ++ persistedPayloads docId isJd chunks :=
        List.filter_eq_self.mpr (fun c hc => by
          rcases List.mem_append.mp hc with h' | h' <;> exact hvalidP c h')
      have hfilter2 : ((persistedPayloads docId isJd chunks).flatMap
          (fun c => [c, c])).filter usableOgText =
          (persistedPayloads docId isJd chunks).flatMap (fun c => [c, c]) :=
        List.filter_eq_self.mpr (fun c hc => by
          rcases List.mem_flatMap.mp hc with ⟨x, hx, hcx⟩
          have hcex : c = x := by
            rcases List.mem_cons.mp hcx with h' | h'
            · exact h'
            · exact List.mem_singleton.mp h'
          exact hcex ▸ husable x hx)
      unfold fullTextParts
      rw [hfilter1, sortChunks_double _ hstrictP, hfilter2, map_dup_flatMap, hogmap]
    have hpne : ¬((persistedPayloads docId isJd chunks ++
        persistedPayloads docId isJd chunks).isEmpty = true) := by
      rw [List.isEmpty_iff]
      intro he
      exact hPne (List.append_eq_nil.mp he).1
    have hpartsne : ¬((fullTextParts (persistedPayloads docId isJd chunks ++
        persistedPayloads docId isJd chunks)).isEmpty = true) := by
      rw [List.isEmpty_iff, hparts]
      intro he
      have hmapne : (keptIndexed chunks).map (fun ic => ogTextOf ic.2) ≠ [] := by
        intro hm
        exact hkept (List.map_eq_nil_iff.mp hm)
      rcases List.exists_mem_of_ne_nil _ hmapne with ⟨s, hs⟩
      have : (s : String) ∈ ([] : List String) := by
        rw [← he]
        exact List.mem_flatMap.mpr ⟨s, hs, List.mem_cons_self _ _⟩
      exact absurd this (List.not_mem_nil s)
    unfold get_full_document_text_from_db
    rw [if_neg hpne, if_neg hpartsne, hparts]
  refine ⟨by rw [h1], by rw [hst1, h2], hfetch, ?_, by rw [hfetch]; exact hrec⟩
  rw [hst2]
  simp only [List.length_append]
  rw [hlen1, processChunksPoints_length]
  ring

def chunksC10 : List LLMChunk :=
  [{ og_content := some "alpha", enriched_content := some "enriched alpha" },
   { og_content := some "beta", enriched_content := some "enriched beta" }]

/-- C10 witness: persisting a concrete two-chunk document twice into an
empty store leaves two copies of each chunk, and reconstruction
concatenates the duplicated text. -/
theorem duplicate_persist_duplicates_witness :
    get_qdrantchunk_content
        (persistToStore (persistToStore ⟨[], 0⟩ "doc" false embed0 chunksC10).2 "doc" false
          embed0 chunksC10).2 "doc" =
      persistedPayloads "doc" false chunksC10 ++ persistedPayloads "doc" false chunksC10 ∧
    get_full_document_text_from_db
        (get_qdrantchunk_content
          (persistToStore (persistToStore ⟨[], 0⟩ "doc" false embed0 chunksC10).2 "doc" false
            embed0 chunksC10).2 "doc") =
      some (pyJoin "\n\n"
        (((keptIndexed chunksC10).map (fun ic => ogTextOf ic.2)).flatMap (fun s => [s, s]))) :=
  ⟨(duplicate_persist_duplicates ⟨[], 0⟩ "doc" false embed0 chunksC10 (by simp) rfl
      (by decide) (by decide) (by decide)).2.2.1,
   (duplicate_persist_duplicates ⟨[], 0⟩ "doc" false embed0 chunksC10 (by simp) rfl
      (by decide) (by decide) (by decide)).2.2.2.2⟩

end SR
